import Mathlib

/-!
Verification of the sendTM telemetry downlink program (src/sendTM/sendTM.c).

The program is embedded as a trace-producing function over an OS oracle `Os`
that supplies the result of every primitive call (open, ioctl, fopen, fread,
write, tcdrain, gettimeofday, ...).  `run os` returns the ordered list of
device/file operations the program performs together with the value returned
from `main`.  All constants (chunk size, queue length, hardcoded per-item
transfer lengths, the 5-byte "smart" delimiter) are taken from the source.
-/

namespace SendTM

/-- Chunk size: `#define BUFSIZ 4096` (sendTM.c line 86). -/
def BUFSIZ : Nat := 4096

/-- Queue length: `int imageAmount = 14;` (line 126). -/
def imageAmount : Nat := 14

/-- The end-of-item delimiter `unsigned char endbuf[] = "smart"` (line 108);
`write(fd, endbuf, 5)` transmits the 5 ASCII bytes s m a r t. -/
def endbuf : List Nat := [115, 109, 97, 114, 116]

/-- Hardcoded length used for even-indexed (image) items: `sz = 16777200;` (line 261). -/
def szImage : Nat := 16777200

/-- Hardcoded length used for odd-indexed (xml) items: `sz = 28165;` (line 264). -/
def szXml : Nat := 28165

/-- Per-item transfer length chosen by parity of the loop index (lines 260-266). -/
def szOf (j : Nat) : Nat := if j % 2 = 0 then szImage else szXml

/-- Iteration count `itr = (int)((sz + (0.5*BUFSIZ)) / (BUFSIZ));` (line 280).
`0.5*BUFSIZ = 2048.0` is exact, `sz + 2048.0` is exact for the sizes involved,
and a division of a Nat below 2^52 by 4096 = 2^12 is exact in double precision,
so the C cast-to-int equals the Nat floor division `(sz + 2048) / 4096`. -/
def itr (sz : Nat) : Nat := (sz + BUFSIZ / 2) / BUFSIZ

/-- `O_RDWR` flag bit (Linux). -/
def O_RDWR : Nat := 2

/-- `O_NONBLOCK` flag bit (Linux). -/
def O_NONBLOCK : Nat := 2048

/-- The device is opened with `open(devname, O_RDWR | O_NONBLOCK, 0)` (line 168). -/
def openFlags : Nat := O_RDWR ||| O_NONBLOCK

/-- Lines 234-236: `int blk = fcntl(fd, F_GETFL); blk = (blk | O_NONBLOCK);`.
The local is computed (and even ORs `O_NONBLOCK` in rather than clearing it)
but never written back: the `fcntl(fd, F_SETFL, ...)` call on line 237 is
commented out. -/
def blkLocal : Nat := openFlags ||| O_NONBLOCK

/-- The device status flags in effect for every subsequent write: unchanged
from `openFlags`, because no `F_SETFL` call is ever made. -/
def devFlagsAfterConfig : Nat := openFlags

/-- One observable operation of the program.  Results are carried so that
failure paths can be distinguished. -/
inductive Ev where
  | forkEv (ok : Bool)
  | openDev (res : Int)
  | setDisc (res : Int)
  | getPar (res : Int)
  | setPar (res : Int)
  | setIdle (res : Int)
  | getFl
  | assertLines (res : Int)
  | txEnable (res : Int)
  | fopenSrc (j : Nat) (ok : Bool)
  | readChunk (j : Nat) (k : Nat) (got : Nat)
  | writeDev (data : List Nat) (req : Nat) (res : Int)
  | drain (res : Int)
  | fcloseSrc (j : Nat)
  | report (total : Int) (elapsed : Int)
  | errMsg
  | sleepSec (n : Nat)
  | deassertLines (res : Int)
  | closeDev
deriving DecidableEq

/-- The OS oracle: results of every primitive call the program makes.
`w j k` / `d j k` are the results of the k-th chunk `write` / `tcdrain` of
item j; `dw j` / `dd j` those of item j's delimiter write and final drain;
`file j` is the byte content of the j-th queue item's source file;
`clock n` is the value (in microseconds) returned by the n-th
`gettimeofday` call; `initBuf` is the initial (uninitialized) content of
`databuf`. -/
structure Os where
  forkOk : Bool
  openRes : Int
  setdRes : Int
  getpRes : Int
  setpRes : Int
  idleRes : Int
  mbisRes : Int
  txenRes : Int
  fopenOk : Nat → Bool
  file : Nat → List Nat
  w : Nat → Nat → Int
  d : Nat → Nat → Int
  dw : Nat → Int
  dd : Nat → Int
  clock : Nat → Int
  mbicRes : Int
  initBuf : List Nat

/-- Mutable state threaded through the item loop: the shared `databuf`
buffer, the current value of `rc`, and the index of the next
`gettimeofday` call. -/
structure St where
  buf : List Nat
  rc : Int
  tIdx : Nat

/-- How an item iteration leaves the loop: continue to the next item,
`break` out of the item loop (delimiter write/drain failure), or
`return code` from `main`. -/
inductive Flow where
  | next
  | brk
  | ret (code : Int)
deriving DecidableEq

/-- One `fread(databuf, sizeof(char), BUFSIZ, fp)`: the next at most
BUFSIZ bytes of the file from position `pos`. -/
def freadChunk (f : List Nat) (pos : Nat) : List Nat := (f.drop pos).take BUFSIZ

/-- The read loop (lines 292-296): all `itr` chunks are read one after the
other into the SAME buffer, each `fread` overwriting its start.  Returns
the trace of reads, the final buffer, and the final file position. -/
def readLoop (f : List Nat) (j : Nat) : Nat → Nat → List Nat → Nat → List Ev × List Nat × Nat
  | _, 0, buf, pos => ([], buf, pos)
  | k, rem + 1, buf, pos =>
    let c := freadChunk f pos
    let r := readLoop f j (k + 1) rem (c ++ buf.drop c.length) (pos + c.length)
    (Ev.readChunk j k c.length :: r.1, r.2.1, r.2.2)

/-- The send loop (lines 303-324): for each k, `write(fd, databuf, BUFSIZ)`
(break on negative result), `totalSize += rc`, `tcdrain(fd)` (break on
negative result).  Returns the trace, the final `totalSize` and the final
`rc`.  The buffer does not change during this loop, so every write sends
the same first BUFSIZ bytes of `buf`. -/
def writeLoop (os : Os) (j : Nat) (buf : List Nat) : Nat → Nat → Int → Int → List Ev × Int × Int
  | _, 0, total, rcIn => ([], total, rcIn)
  | k, rem + 1, total, rc =>
    let rc1 := os.w j k
    if rc1 < 0 then ([Ev.writeDev (buf.take BUFSIZ) BUFSIZ rc1, Ev.errMsg], total, rc1)
    else
      let total1 := total + rc1
      let rc2 := os.d j k
      if rc2 < 0 then
        ([Ev.writeDev (buf.take BUFSIZ) BUFSIZ rc1, Ev.drain rc2, Ev.errMsg], total1, rc2)
      else
        let r := writeLoop os j buf (k + 1) rem total1 rc2
        (Ev.writeDev (buf.take BUFSIZ) BUFSIZ rc1 :: Ev.drain rc2 :: r.1, r.2.1, r.2.2)

/-- One iteration of the item loop (lines 257-356): fopen (return 1 on
failure), read loop, time stamp, send loop, stale-`rc` check (return `rc`
on failure, line 325-328: note NO fclose on this path), fclose, delimiter
write (break on failure), final drain (break on failure), end time stamp
and per-item report. -/
def runItem (os : Os) (j : Nat) (st : St) : List Ev × Flow × St :=
  if os.fopenOk j then
    let n := itr (szOf j)
    let rl := readLoop (os.file j) j 0 n st.buf 0
    let buf1 := rl.2.1
    let wl := writeLoop os j buf1 0 n 0 st.rc
    let tr0 := Ev.fopenSrc j true :: (rl.1 ++ wl.1)
    let rc1 := wl.2.2
    if rc1 < 0 then
      (tr0 ++ [Ev.errMsg], Flow.ret rc1, { buf := buf1, rc := rc1, tIdx := st.tIdx + 1 })
    else
      let rcW := os.dw j
      if rcW < 0 then
        (tr0 ++ [Ev.fcloseSrc j, Ev.writeDev endbuf 5 rcW, Ev.errMsg], Flow.brk,
         { buf := buf1, rc := rcW, tIdx := st.tIdx + 1 })
      else
        let rcD := os.dd j
        if rcD < 0 then
          (tr0 ++ [Ev.fcloseSrc j, Ev.writeDev endbuf 5 rcW, Ev.drain rcD, Ev.errMsg], Flow.brk,
           { buf := buf1, rc := rcD, tIdx := st.tIdx + 1 })
        else
          (tr0 ++ [Ev.fcloseSrc j, Ev.writeDev endbuf 5 rcW, Ev.drain rcD,
                   Ev.report wl.2.1 (os.clock (st.tIdx + 1) - os.clock st.tIdx)],
           Flow.next, { buf := buf1, rc := rcD, tIdx := st.tIdx + 2 })
  else
    ([Ev.fopenSrc j false, Ev.errMsg], Flow.ret 1, st)

/-- The item loop `for (j = 0; j < imageAmount; j++)`, stopping on a
`break` or `return`. -/
def runItems (os : Os) : Nat → Nat → St → List Ev × Flow × St
  | _, 0, st => ([], Flow.next, st)
  | j, rem + 1, st =>
    let r := runItem os j st
    match r.2.1 with
    | Flow.next =>
      let rest := runItems os (j + 1) rem r.2.2
      (r.1 ++ rest.1, rest.2.1, rest.2.2)
    | f => (r.1, f, r.2.2)

/-- Session teardown (lines 362-382): `sleep(2)`, deassert RTS/DTR with
`ioctl(fd, TIOCMBIC, &sigs)` (return its result on failure), `close(fd)`,
`return 0`. -/
def sessionEnd (os : Os) : List Ev × Int :=
  if os.mbicRes < 0 then
    ([Ev.sleepSec 2, Ev.deassertLines os.mbicRes, Ev.errMsg], os.mbicRes)
  else
    ([Ev.sleepSec 2, Ev.deassertLines os.mbicRes, Ev.closeDev], 0)

/-- The configuration-phase trace when every configuration call succeeds
(lines 149-250): fork+exec of fsynth, open, TIOCSETD, MGSL_IOCGPARAMS,
MGSL_IOCSPARAMS, MGSL_IOCSTXIDLE, the dead `fcntl(F_GETFL)`, TIOCMBIS
(assert RTS/DTR), MGSL_IOCTXENABLE (result unchecked). -/
def configT (os : Os) : List Ev :=
  [Ev.forkEv true, Ev.openDev os.openRes, Ev.setDisc os.setdRes, Ev.getPar os.getpRes,
   Ev.setPar os.setpRes, Ev.setIdle os.idleRes, Ev.getFl, Ev.assertLines os.mbisRes,
   Ev.txEnable os.txenRes]

/-- Initial loop state: `databuf` uninitialized, `rc` holding the unchecked
result of MGSL_IOCTXENABLE (line 250), no `gettimeofday` call made yet. -/
def st0 (os : Os) : St := { buf := os.initBuf, rc := os.txenRes, tIdx := 0 }

/-- The whole program: configuration (each failing step returns its negative
result, line-for-line from sendTM.c), then the item loop, then session
teardown — except that a `Flow.ret` skips the teardown entirely. -/
def run (os : Os) : List Ev × Int :=
  if os.forkOk = false then ([Ev.forkEv false, Ev.errMsg], 1)
  else if os.openRes < 0 then ([Ev.forkEv true, Ev.openDev os.openRes, Ev.errMsg], os.openRes)
  else if os.setdRes < 0 then
    ([Ev.forkEv true, Ev.openDev os.openRes, Ev.setDisc os.setdRes, Ev.errMsg], os.setdRes)
  else if os.getpRes < 0 then
    ([Ev.forkEv true, Ev.openDev os.openRes, Ev.setDisc os.setdRes, Ev.getPar os.getpRes,
      Ev.errMsg], os.getpRes)
  else if os.setpRes < 0 then
    ([Ev.forkEv true, Ev.openDev os.openRes, Ev.setDisc os.setdRes, Ev.getPar os.getpRes,
      Ev.setPar os.setpRes, Ev.errMsg], os.setpRes)
  else if os.idleRes < 0 then
    ([Ev.forkEv true, Ev.openDev os.openRes, Ev.setDisc os.setdRes, Ev.getPar os.getpRes,
      Ev.setPar os.setpRes, Ev.setIdle os.idleRes, Ev.errMsg], os.idleRes)
  else if os.mbisRes < 0 then
    ([Ev.forkEv true, Ev.openDev os.openRes, Ev.setDisc os.setdRes, Ev.getPar os.getpRes,
      Ev.setPar os.setpRes, Ev.setIdle os.idleRes, Ev.getFl, Ev.assertLines os.mbisRes,
      Ev.errMsg], os.mbisRes)
  else
    let ri := runItems os 0 imageAmount (st0 os)
    match ri.2.1 with
    | Flow.ret code => (configT os ++ ri.1, code)
    | _ =>
      let se := sessionEnd os
      (configT os ++ ri.1 ++ se.1, se.2)

/-- The trace of device/file operations of a run. -/
def runTrace (os : Os) : List Ev := (run os).1

/-- The value returned from `main`. -/
def runExit (os : Os) : Int := (run os).2

/-! ### Event classifiers and trace observers -/

/-- Is this a `write` to the link? -/
def isWrite : Ev → Bool
  | Ev.writeDev _ _ _ => true
  | _ => false

/-- Is this a `tcdrain`? -/
def isDrain : Ev → Bool
  | Ev.drain _ => true
  | _ => false

/-- Is this a `tcdrain` that reported failure? -/
def isFailedDrain : Ev → Bool
  | Ev.drain r => decide (r < 0)
  | _ => false

/-- Is this a `write` that reported failure? -/
def isFailedWrite : Ev → Bool
  | Ev.writeDev _ _ r => decide (r < 0)
  | _ => false

/-- Is this a payload chunk write (request size BUFSIZ)? -/
def isChunkWrite : Ev → Bool
  | Ev.writeDev _ req _ => decide (req = BUFSIZ)
  | _ => false

/-- Is this the 5-byte delimiter write? -/
def isDelimWrite : Ev → Bool
  | Ev.writeDev data req _ => decide (data = endbuf ∧ req = 5)
  | _ => false

/-- Is this a successful source-file open? -/
def isFopen : Ev → Bool
  | Ev.fopenSrc _ ok => ok
  | _ => false

/-- Is this a source-file close? -/
def isFclose : Ev → Bool
  | Ev.fcloseSrc _ => true
  | _ => false

/-- Is this the assertion of the RTS/DTR control lines? -/
def isAssert : Ev → Bool
  | Ev.assertLines _ => true
  | _ => false

/-- Is this the deassertion of the RTS/DTR control lines? -/
def isDeassert : Ev → Bool
  | Ev.deassertLines _ => true
  | _ => false

/-- The request size of a write event. -/
def reqOf : Ev → Nat
  | Ev.writeDev _ req _ => req
  | _ => 0

/-- The result of a write event. -/
def resOf : Ev → Int
  | Ev.writeDev _ _ r => r
  | _ => 0

/-- The bytes a write event puts on the link. -/
def dataOf : Ev → List Nat
  | Ev.writeDev data _ _ => data
  | _ => []

/-- Concatenation of the bytes of all chunk writes of a trace: what the
receiver sees as an item's payload. -/
def chunkPayload (tr : List Ev) : List Nat := ((tr.filter isChunkWrite).map dataOf).flatten

/-- Sum of the request sizes of all chunk writes of a trace. -/
def chunkSizesSum (tr : List Ev) : Nat := ((tr.filter isChunkWrite).map reqOf).sum

/-- The `(totalSize, elapsed)` pairs of the per-item reports of a trace. -/
def reports (tr : List Ev) : List (Int × Int) :=
  tr.filterMap fun e =>
    match e with
    | Ev.report t el => some (t, el)
    | _ => none

/-! ### Generic left-to-right scanners over traces -/

/-- Scan a trace with a state update `upd`, checking `ok` at every event. -/
def scanOk {σ : Type} (ok : σ → Ev → Bool) (upd : σ → Ev → σ) : σ → List Ev → Bool
  | _, [] => true
  | s, e :: r => ok s e && scanOk ok upd (upd s e) r

/-- The state after scanning a whole trace. -/
def endSt {σ : Type} (upd : σ → Ev → σ) (s : σ) (l : List Ev) : σ := l.foldl upd s

/-- Pending-write state: true after a write with no drain since. -/
def pendUpd (s : Bool) (e : Ev) : Bool := if isWrite e then true else if isDrain e then false else s

/-- Reject a write while another write is still undrained. -/
def pendOk (s : Bool) (e : Ev) : Bool := !(s && isWrite e)

/-- No two writes occur without an intervening drain. -/
def noDoubleWrite (tr : List Ev) : Bool := scanOk pendOk pendUpd false tr

/-- Seen-failed-drain state. -/
def fdUpd (s : Bool) (e : Ev) : Bool := s || isFailedDrain e

/-- Reject any write after a failed drain. -/
def fdOk (s : Bool) (e : Ev) : Bool := !(s && isWrite e)

/-- After a drain reports failure, no write ever occurs again. -/
def noWriteAfterFailedDrain (tr : List Ev) : Bool := scanOk fdOk fdUpd false tr

/-- State: the immediately preceding event was a failed drain. -/
def jfUpd (_ : Bool) (e : Ev) : Bool := isFailedDrain e

/-- A failed drain must be immediately followed by a diagnostic. -/
def jfOk (s : Bool) (e : Ev) : Bool := !s || decide (e = Ev.errMsg)

/-- Every failed drain is immediately followed by an error diagnostic (and
is not the last event of the run). -/
def drainFailureReported (tr : List Ev) : Bool :=
  scanOk jfOk jfUpd false tr && !(endSt jfUpd false tr)

/-- Source-open state: a source file is currently open. -/
def openUpd (s : Bool) (e : Ev) : Bool :=
  if isFopen e then true else if isFclose e then false else s

/-- Reject opening a second source while one is open. -/
def openOk (s : Bool) (e : Ev) : Bool := !(s && isFopen e)

/-- At most one source file is open at any time. -/
def atMostOneOpen (tr : List Ev) : Bool := scanOk openOk openUpd false tr

/-! ### Success predicates and concrete oracles -/

/-- All configuration-phase calls succeed (including the final TIOCMBIC). -/
def cfgOk (os : Os) : Prop :=
  os.forkOk = true ∧ 0 ≤ os.openRes ∧ 0 ≤ os.setdRes ∧ 0 ≤ os.getpRes ∧
  0 ≤ os.setpRes ∧ 0 ≤ os.idleRes ∧ 0 ≤ os.mbisRes ∧ 0 ≤ os.mbicRes

/-- Every file/device call of item j succeeds. -/
def itemOk (os : Os) (j : Nat) : Prop :=
  os.fopenOk j = true ∧ (∀ k, 0 ≤ os.w j k) ∧ (∀ k, 0 ≤ os.d j k) ∧
  0 ≤ os.dw j ∧ 0 ≤ os.dd j

/-- Item j's open, chunk writes and chunk drains succeed (its delimiter
write and final drain are unconstrained). -/
def itemChunksOk (os : Os) (j : Nat) : Prop :=
  os.fopenOk j = true ∧ (∀ k, 0 ≤ os.w j k) ∧ (∀ k, 0 ≤ os.d j k)

/-- Everything succeeds. -/
def allOk (os : Os) : Prop := cfgOk os ∧ ∀ j, itemOk os j

/-- A fully successful oracle: every call succeeds, every chunk write
transfers the full 4096 bytes, the clock advances by 1 µs per call. -/
def osGood : Os where
  forkOk := true
  openRes := 3
  setdRes := 0
  getpRes := 0
  setpRes := 0
  idleRes := 0
  mbisRes := 0
  txenRes := 0
  fopenOk := fun _ => true
  file := fun _ => []
  w := fun _ _ => 4096
  d := fun _ _ => 0
  dw := fun _ => 5
  dd := fun _ => 0
  clock := fun n => (n : Int)
  mbicRes := 0
  initBuf := []

/-- Like `osGood`, but the very first chunk write of item 0 fails. -/
def osChunkFail : Os := { osGood with w := fun j k => if j = 0 ∧ k = 0 then -1 else 4096 }

/-- Like `osGood`, but every delimiter write fails. -/
def osDelimFail : Os := { osGood with dw := fun _ => -1 }

/-- A 16777216-byte source for item 0 whose first chunk (all 0) differs
from its last chunk (all 1). -/
def fileC1 : List Nat := List.replicate (4095 * 4096) 0 ++ List.replicate 4096 1

/-- Oracle for the C1 scenario: item 0's file is `fileC1`. -/
def osC1 : Os := { osGood with file := fun j => if j = 0 then fileC1 else [] }

/-- Oracle for the C2 counterexample: item 1's source really is 28165 bytes. -/
def osC2 : Os := { osGood with file := fun j => if j = 1 then List.replicate 28165 3 else [] }

/-- A neutral initial loop state. -/
def stGood : St := { buf := [], rc := 0, tIdx := 0 }

/-- Initial state for the C1 scenario (uninitialized buffer modeled as 2s). -/
def stC1 : St := { buf := List.replicate 4096 2, rc := 0, tIdx := 0 }

/-- The trace of a fully successful send loop of `n` chunks starting at
index `k`: write/drain pairs, all sending the first BUFSIZ bytes of the
(unchanging) buffer. -/
def wlTraceOk (w d : Nat → Int) (buf : List Nat) : Nat → Nat → List Ev
  | _, 0 => []
  | k, n + 1 =>
    Ev.writeDev (buf.take BUFSIZ) BUFSIZ (w k) :: Ev.drain (d k) :: wlTraceOk w d buf (k + 1) n

/-- Sum of `w k + w (k+1) + ... + w (k+n-1)`. -/
def sumFrom (w : Nat → Int) (k : Nat) : Nat → Int
  | 0 => 0
  | n + 1 => w k + sumFrom w (k + 1) n

/-! ### Generic scanner lemmas -/

theorem scanOk_append {σ : Type} (ok : σ → Ev → Bool) (upd : σ → Ev → σ) (s : σ)
    (a b : List Ev) :
    scanOk ok upd s (a ++ b) = (scanOk ok upd s a && scanOk ok upd (endSt upd s a) b) := by
  induction a generalizing s with
  | nil => simp [scanOk, endSt]
  | cons e r ih => simp [scanOk, endSt, ih, Bool.and_assoc]

theorem endSt_append {σ : Type} (upd : σ → Ev → σ) (s : σ) (a b : List Ev) :
    endSt upd s (a ++ b) = endSt upd (endSt upd s a) b := by
  simp [endSt]

theorem scanOk_neutral {σ : Type} (ok : σ → Ev → Bool) (upd : σ → Ev → σ) (l : List Ev)
    (h : ∀ e ∈ l, (∀ s : σ, ok s e = true) ∧ (∀ s : σ, upd s e = s)) (s : σ) :
    scanOk ok upd s l = true ∧ endSt upd s l = s := by
  induction l generalizing s with
  | nil => simp [scanOk, endSt]
  | cons e r ih =>
    have he := h e (List.mem_cons_self e r)
    have hr := ih (fun x hx => h x (List.mem_cons_of_mem e hx)) s
    refine ⟨?_, ?_⟩
    · simp [scanOk, he.1 s, he.2 s, hr.1]
    · simp [endSt, he.2 s]
      simpa [endSt] using hr.2

theorem countP_zero_of_shape (p : Ev → Bool) (l : List Ev) (h : ∀ e ∈ l, p e = false) :
    l.countP p = 0 :=
  List.countP_eq_zero.mpr (by intro a ha; simp [h a ha])

theorem scanOk_cons {σ : Type} (ok : σ → Ev → Bool) (upd : σ → Ev → σ) (s : σ) (e : Ev)
    (l : List Ev) : scanOk ok upd s (e :: l) = (ok s e && scanOk ok upd (upd s e) l) := rfl

theorem endSt_cons {σ : Type} (upd : σ → Ev → σ) (s : σ) (e : Ev) (l : List Ev) :
    endSt upd s (e :: l) = endSt upd (upd s e) l := rfl

/-! ### Read-loop lemmas -/

theorem readLoop_shape (f : List Nat) (j : Nat) :
    ∀ rem k buf pos, ∀ e ∈ (readLoop f j k rem buf pos).1, ∃ a b c, e = Ev.readChunk a b c := by
  intro rem
  induction rem with
  | zero => intro k buf pos e he; simp [readLoop] at he
  | succ m ih =>
    intro k buf pos e he
    simp only [readLoop, List.mem_cons] at he
    rcases he with rfl | he
    · exact ⟨j, k, _, rfl⟩
    · exact ih _ _ _ e he

theorem readLoop_countP_zero (f : List Nat) (j : Nat) (p : Ev → Bool)
    (h : ∀ a b c, p (Ev.readChunk a b c) = false) (rem k : Nat) (buf : List Nat) (pos : Nat) :
    ((readLoop f j k rem buf pos).1).countP p = 0 := by
  refine countP_zero_of_shape p _ (fun e he => ?_)
  obtain ⟨a, b, c, rfl⟩ := readLoop_shape f j rem k buf pos e he
  exact h a b c

theorem readLoop_reports (f : List Nat) (j : Nat) (rem k : Nat) (buf : List Nat) (pos : Nat) :
    reports ((readLoop f j k rem buf pos).1) = [] := by
  refine List.filterMap_eq_nil_iff.mpr (fun e he => ?_)
  obtain ⟨a, b, c, rfl⟩ := readLoop_shape f j rem k buf pos e he
  rfl

theorem readLoop_succ (f : List Nat) (j k rem : Nat) (buf : List Nat) (pos : Nat) :
    readLoop f j k (rem + 1) buf pos =
      (Ev.readChunk j k (freadChunk f pos).length ::
         (readLoop f j (k + 1) rem (freadChunk f pos ++ buf.drop (freadChunk f pos).length)
           (pos + (freadChunk f pos).length)).1,
       (readLoop f j (k + 1) rem (freadChunk f pos ++ buf.drop (freadChunk f pos).length)
           (pos + (freadChunk f pos).length)).2) := rfl

/-- With at least `rem` full chunks available from position `pos`, the final
buffer of the read loop starts with the LAST chunk read. -/
theorem readLoop_buf_take (f : List Nat) (j : Nat) :
    ∀ rem k buf pos, 1 ≤ rem → BUFSIZ * rem ≤ (f.drop pos).length →
      ((readLoop f j k rem buf pos).2.1).take BUFSIZ =
        (f.drop (pos + (rem - 1) * BUFSIZ)).take BUFSIZ := by
  have hB : BUFSIZ = 4096 := rfl
  intro rem
  induction rem with
  | zero => intro k buf pos h; omega
  | succ m ih =>
    intro k buf pos _ hlen
    have hlen' : 4096 * (m + 1) ≤ f.length - pos := by
      rw [hB] at hlen
      simpa [List.length_drop] using hlen
    have hc : (freadChunk f pos).length = BUFSIZ := by
      simp only [freadChunk, List.length_take, List.length_drop, hB]
      omega
    rw [readLoop_succ]
    cases m with
    | zero =>
      simp only [readLoop]
      rw [List.take_append_of_le_length hc.ge]
      simp [freadChunk, List.take_take]
    | succ m2 =>
      have hrec := ih (k + 1) (freadChunk f pos ++ buf.drop (freadChunk f pos).length)
          (pos + (freadChunk f pos).length) (by omega) ?_
      · rw [hrec, hc]
        congr 2
        rw [hB]
        omega
      · rw [hc, hB]
        simp only [List.length_drop]
        omega

/-! ### Send-loop lemmas -/

theorem writeLoop_shape (os : Os) (j : Nat) (buf : List Nat) :
    ∀ rem k total rc, ∀ e ∈ (writeLoop os j buf k rem total rc).1,
      (∃ dat r, e = Ev.writeDev dat BUFSIZ r) ∨ (∃ r, e = Ev.drain r) ∨ e = Ev.errMsg := by
  intro rem
  induction rem with
  | zero => intro k total rc e he; simp [writeLoop] at he
  | succ m ih =>
    intro k total rc e he
    by_cases h1 : os.w j k < 0
    · simp only [writeLoop, if_pos h1, List.mem_cons, List.not_mem_nil, or_false] at he
      rcases he with rfl | rfl
      · exact Or.inl ⟨_, _, rfl⟩
      · exact Or.inr (Or.inr rfl)
    · by_cases h2 : os.d j k < 0
      · simp only [writeLoop, if_neg h1, if_pos h2, List.mem_cons, List.not_mem_nil,
          or_false] at he
        rcases he with rfl | rfl | rfl
        · exact Or.inl ⟨_, _, rfl⟩
        · exact Or.inr (Or.inl ⟨_, rfl⟩)
        · exact Or.inr (Or.inr rfl)
      · simp only [writeLoop, if_neg h1, if_neg h2, List.mem_cons] at he
        rcases he with rfl | rfl | he
        · exact Or.inl ⟨_, _, rfl⟩
        · exact Or.inr (Or.inl ⟨_, rfl⟩)
        · exact ih _ _ _ e he

/-- Closed form of the send loop when every write and drain succeeds. -/
theorem writeLoop_ok (os : Os) (j : Nat) (buf : List Nat)
    (hw : ∀ i, 0 ≤ os.w j i) (hd : ∀ i, 0 ≤ os.d j i) :
    ∀ n k total rc,
      (writeLoop os j buf k n total rc).1 = wlTraceOk (os.w j) (os.d j) buf k n ∧
      (writeLoop os j buf k n total rc).2.1 = total + sumFrom (os.w j) k n ∧
      (1 ≤ n → (writeLoop os j buf k n total rc).2.2 = os.d j (k + n - 1)) ∧
      (n = 0 → (writeLoop os j buf k n total rc).2.2 = rc) := by
  intro n
  induction n with
  | zero => intro k total rc; simp [writeLoop, wlTraceOk, sumFrom]
  | succ m ih =>
    intro k total rc
    have h1 : ¬ os.w j k < 0 := not_lt.mpr (hw k)
    have h2 : ¬ os.d j k < 0 := not_lt.mpr (hd k)
    have hr := ih (k + 1) (total + os.w j k) (os.d j k)
    refine ⟨?_, ?_, ?_, ?_⟩
    · simp only [writeLoop, if_neg h1, if_neg h2, wlTraceOk]
      rw [hr.1]
    · simp only [writeLoop, if_neg h1, if_neg h2]
      rw [hr.2.1]
      simp [sumFrom, add_assoc]
    · intro _
      simp only [writeLoop, if_neg h1, if_neg h2]
      cases m with
      | zero => simpa using hr.2.2.2 rfl
      | succ m2 =>
        have := hr.2.2.1 (by omega)
        rw [this]
        congr 1
        omega
    · intro h; exact absurd h (by omega)

/-- If the k-th chunk write fails, the send loop stops at once. -/
theorem writeLoop_fail0 (os : Os) (j : Nat) (buf : List Nat) (k rem : Nat) (total rc : Int)
    (hw : os.w j k < 0) (h1 : 1 ≤ rem) :
    writeLoop os j buf k rem total rc =
      ([Ev.writeDev (buf.take BUFSIZ) BUFSIZ (os.w j k), Ev.errMsg], total, os.w j k) := by
  obtain ⟨m, rfl⟩ : ∃ m, rem = m + 1 := ⟨rem - 1, by omega⟩
  simp [writeLoop, hw]

/-! ### Lemmas about the all-success send-loop trace -/

theorem wlTraceOk_shape (w d : Nat → Int) (buf : List Nat) :
    ∀ n k, ∀ e ∈ wlTraceOk w d buf k n,
      (∃ i, k ≤ i ∧ i < k + n ∧ e = Ev.writeDev (buf.take BUFSIZ) BUFSIZ (w i)) ∨
      (∃ i, k ≤ i ∧ i < k + n ∧ e = Ev.drain (d i)) := by
  intro n
  induction n with
  | zero => intro k e he; simp [wlTraceOk] at he
  | succ m ih =>
    intro k e he
    simp only [wlTraceOk, List.mem_cons] at he
    rcases he with rfl | rfl | he
    · exact Or.inl ⟨k, le_refl k, by omega, rfl⟩
    · exact Or.inr ⟨k, le_refl k, by omega, rfl⟩
    · rcases ih (k + 1) e he with ⟨i, h1, h2, h3⟩ | ⟨i, h1, h2, h3⟩
      · exact Or.inl ⟨i, by omega, by omega, h3⟩
      · exact Or.inr ⟨i, by omega, by omega, h3⟩

theorem wlTraceOk_countChunk (w d : Nat → Int) (buf : List Nat) :
    ∀ n k, (wlTraceOk w d buf k n).countP isChunkWrite = n := by
  intro n
  induction n with
  | zero => intro k; simp [wlTraceOk]
  | succ m ih => intro k; simp [wlTraceOk, List.countP_cons, isChunkWrite, isDrain, ih]

theorem wlTraceOk_countDelim (w d : Nat → Int) (buf : List Nat) :
    ∀ n k, (wlTraceOk w d buf k n).countP isDelimWrite = 0 := by
  intro n
  induction n with
  | zero => intro k; simp [wlTraceOk]
  | succ m ih => intro k; simp [wlTraceOk, List.countP_cons, isDelimWrite, BUFSIZ, ih]

theorem wlTraceOk_countP_zero (w d : Nat → Int) (buf : List Nat) (p : Ev → Bool)
    (hpw : ∀ dat r, p (Ev.writeDev dat BUFSIZ r) = false) (hpd : ∀ r, p (Ev.drain r) = false)
    (n k : Nat) : (wlTraceOk w d buf k n).countP p = 0 := by
  refine countP_zero_of_shape p _ (fun e he => ?_)
  rcases wlTraceOk_shape w d buf n k e he with ⟨i, _, _, rfl⟩ | ⟨i, _, _, rfl⟩
  · exact hpw _ _
  · exact hpd _

theorem wlTraceOk_chunkSizes (w d : Nat → Int) (buf : List Nat) :
    ∀ n k, chunkSizesSum (wlTraceOk w d buf k n) = n * BUFSIZ := by
  intro n
  induction n with
  | zero => intro k; simp [wlTraceOk, chunkSizesSum]
  | succ m ih =>
    intro k
    have := ih (k + 1)
    simp only [chunkSizesSum] at this ⊢
    simp [wlTraceOk, List.filter_cons, isChunkWrite, isDrain, reqOf, this, Nat.succ_mul]
    omega

theorem wlTraceOk_payload (w d : Nat → Int) (buf : List Nat) :
    ∀ n k, chunkPayload (wlTraceOk w d buf k n) =
      (List.replicate n (buf.take BUFSIZ)).flatten := by
  intro n
  induction n with
  | zero => intro k; simp [wlTraceOk, chunkPayload]
  | succ m ih =>
    intro k
    have := ih (k + 1)
    simp only [chunkPayload] at this ⊢
    simp [wlTraceOk, List.filter_cons, isChunkWrite, isDrain, dataOf, this, List.replicate_succ]

theorem wlTraceOk_reports (w d : Nat → Int) (buf : List Nat) :
    ∀ n k, reports (wlTraceOk w d buf k n) = [] := by
  intro n
  induction n with
  | zero => intro k; simp [wlTraceOk, reports]
  | succ m ih =>
    intro k
    have := ih (k + 1)
    simp only [reports] at this ⊢
    simp [wlTraceOk, this]

theorem sumFrom_const (w : Nat → Int) (c : Int) (h : ∀ i, w i = c) :
    ∀ n k, sumFrom w k n = n * c := by
  intro n
  induction n with
  | zero => intro k; simp [sumFrom]
  | succ m ih =>
    intro k
    simp only [sumFrom, h k, ih (k + 1)]
    push_cast
    ring

/-! ### Arithmetic facts about the iteration counts -/

theorem itr_szImage : itr szImage = 4096 := by decide

theorem itr_szXml : itr szXml = 7 := by decide

theorem itr_szOf_pos (j : Nat) : 1 ≤ itr (szOf j) := by
  by_cases h : j % 2 = 0
  · simp only [szOf, if_pos h]; decide
  · simp only [szOf, if_neg h]; decide

theorem szOf_zero : szOf 0 = szImage := rfl

theorem szOf_one : szOf 1 = szXml := rfl

/-! ### Scanner lemmas for the send loop -/

theorem pend_seg_neutral (l : List Ev) (h : ∀ e ∈ l, isWrite e = false ∧ isDrain e = false)
    (s : Bool) : scanOk pendOk pendUpd s l = true ∧ endSt pendUpd s l = s :=
  scanOk_neutral _ _ _
    (fun e he =>
      ⟨fun s => by simp [pendOk, (h e he).1], fun s => by simp [pendUpd, (h e he).1, (h e he).2]⟩) s

theorem fd_seg_neutral (l : List Ev)
    (h : ∀ e ∈ l, isWrite e = false ∧ isFailedDrain e = false) (s : Bool) :
    scanOk fdOk fdUpd s l = true ∧ endSt fdUpd s l = s :=
  scanOk_neutral _ _ _
    (fun e he =>
      ⟨fun s => by simp [fdOk, (h e he).1], fun s => by simp [fdUpd, (h e he).2]⟩) s

theorem open_seg_neutral (l : List Ev)
    (h : ∀ e ∈ l, isFopen e = false ∧ isFclose e = false) (s : Bool) :
    scanOk openOk openUpd s l = true ∧ endSt openUpd s l = s :=
  scanOk_neutral _ _ _
    (fun e he =>
      ⟨fun s => by simp [openOk, (h e he).1],
       fun s => by simp [openUpd, (h e he).1, (h e he).2]⟩) s

theorem jf_noDrainSeg (l : List Ev) (h : ∀ e ∈ l, isFailedDrain e = false) :
    scanOk jfOk jfUpd false l = true ∧ endSt jfUpd false l = false := by
  induction l with
  | nil => simp [scanOk, endSt]
  | cons e r ih =>
    have he := h e (List.mem_cons_self e r)
    have hr := ih (fun x hx => h x (List.mem_cons_of_mem e hx))
    refine ⟨?_, ?_⟩
    · simp [scanOk, jfOk, jfUpd, he, hr.1]
    · simp only [endSt, List.foldl_cons, jfUpd, he]
      simpa [endSt] using hr.2

theorem readLoop_calm (f : List Nat) (j rem k : Nat) (buf : List Nat) (pos : Nat) :
    ∀ e ∈ (readLoop f j k rem buf pos).1,
      isWrite e = false ∧ isDrain e = false ∧ isFailedDrain e = false ∧
      isFopen e = false ∧ isFclose e = false := by
  intro e he
  obtain ⟨a, b, c, rfl⟩ := readLoop_shape f j rem k buf pos e he
  exact ⟨rfl, rfl, rfl, rfl, rfl⟩

theorem pend_writeLoop (os : Os) (j : Nat) (buf : List Nat) :
    ∀ rem k total rc,
      scanOk pendOk pendUpd false (writeLoop os j buf k rem total rc).1 = true ∧
      (endSt pendUpd false (writeLoop os j buf k rem total rc).1 = true →
        (writeLoop os j buf k rem total rc).2.2 < 0) := by
  intro rem
  induction rem with
  | zero => intro k total rc; simp [writeLoop, scanOk, endSt]
  | succ m ih =>
    intro k total rc
    by_cases h1 : os.w j k < 0
    · refine ⟨?_, ?_⟩
      · simp [writeLoop, h1, scanOk, pendOk, pendUpd, isWrite, isDrain]
      · intro _; simpa [writeLoop, h1] using h1
    · by_cases h2 : os.d j k < 0
      · refine ⟨?_, ?_⟩
        · simp [writeLoop, h1, h2, scanOk, pendOk, pendUpd, isWrite, isDrain]
        · simp [writeLoop, h1, h2, endSt, pendUpd, isWrite, isDrain]
      · have hrec := ih (k + 1) (total + os.w j k) (os.d j k)
        refine ⟨?_, ?_⟩
        · simpa [writeLoop, h1, h2, scanOk, pendOk, pendUpd, isWrite, isDrain] using hrec.1
        · intro h
          have h' : endSt pendUpd false
              (writeLoop os j buf (k + 1) m (total + os.w j k) (os.d j k)).1 = true := by
            simpa [writeLoop, h1, h2, endSt, pendUpd, isWrite, isDrain] using h
          simpa [writeLoop, h1, h2] using hrec.2 h'

theorem fd_writeLoop (os : Os) (j : Nat) (buf : List Nat) :
    ∀ rem k total rc,
      scanOk fdOk fdUpd false (writeLoop os j buf k rem total rc).1 = true ∧
      (endSt fdUpd false (writeLoop os j buf k rem total rc).1 = true →
        (writeLoop os j buf k rem total rc).2.2 < 0) := by
  intro rem
  induction rem with
  | zero => intro k total rc; simp [writeLoop, scanOk, endSt]
  | succ m ih =>
    intro k total rc
    by_cases h1 : os.w j k < 0
    · refine ⟨?_, ?_⟩
      · simp [writeLoop, h1, scanOk, fdOk, fdUpd, isWrite, isFailedDrain]
      · intro _; simpa [writeLoop, h1] using h1
    · by_cases h2 : os.d j k < 0
      · refine ⟨?_, ?_⟩
        · simp [writeLoop, h1, h2, scanOk, fdOk, fdUpd, isWrite, isFailedDrain]
        · intro _; simpa [writeLoop, h1, h2] using h2
      · have hrec := ih (k + 1) (total + os.w j k) (os.d j k)
        refine ⟨?_, ?_⟩
        · simpa [writeLoop, h1, h2, scanOk, fdOk, fdUpd, isWrite, isFailedDrain] using hrec.1
        · intro h
          have h' : endSt fdUpd false
              (writeLoop os j buf (k + 1) m (total + os.w j k) (os.d j k)).1 = true := by
            simpa [writeLoop, h1, h2, endSt, fdUpd, isWrite, isFailedDrain] using h
          simpa [writeLoop, h1, h2] using hrec.2 h'

theorem jf_writeLoop (os : Os) (j : Nat) (buf : List Nat) :
    ∀ rem k total rc,
      scanOk jfOk jfUpd false (writeLoop os j buf k rem total rc).1 = true ∧
      endSt jfUpd false (writeLoop os j buf k rem total rc).1 = false := by
  intro rem
  induction rem with
  | zero => intro k total rc; simp [writeLoop, scanOk, endSt]
  | succ m ih =>
    intro k total rc
    by_cases h1 : os.w j k < 0
    · refine ⟨?_, ?_⟩
      · simp [writeLoop, h1, scanOk, jfOk, jfUpd, isFailedDrain]
      · simp [writeLoop, h1, endSt, jfUpd, isFailedDrain]
    · by_cases h2 : os.d j k < 0
      · refine ⟨?_, ?_⟩
        · simp [writeLoop, h1, h2, scanOk, jfOk, jfUpd, isFailedDrain]
        · simp [writeLoop, h1, h2, endSt, jfUpd, isFailedDrain]
      · have hrec := ih (k + 1) (total + os.w j k) (os.d j k)
        refine ⟨?_, ?_⟩
        · simpa [writeLoop, h1, h2, scanOk, jfOk, jfUpd, isFailedDrain] using hrec.1
        · simpa [writeLoop, h1, h2, endSt, jfUpd, isFailedDrain] using hrec.2

theorem open_writeLoop (os : Os) (j : Nat) (buf : List Nat) (rem k : Nat) (total rc : Int)
    (s : Bool) :
    scanOk openOk openUpd s (writeLoop os j buf k rem total rc).1 = true ∧
    endSt openUpd s (writeLoop os j buf k rem total rc).1 = s := by
  refine open_seg_neutral _ (fun e he => ?_) s
  rcases writeLoop_shape os j buf rem k total rc e he with ⟨dat, r, rfl⟩ | ⟨r, rfl⟩ | rfl <;>
    exact ⟨rfl, rfl⟩

/-! ### Characterizations of one item-loop iteration -/

/-- Closed form of an item iteration when every call of the item succeeds. -/
theorem runItem_ok (os : Os) (j : Nat) (st : St) (h : itemOk os j) :
    runItem os j st =
      (Ev.fopenSrc j true ::
         ((readLoop (os.file j) j 0 (itr (szOf j)) st.buf 0).1 ++
          wlTraceOk (os.w j) (os.d j) (readLoop (os.file j) j 0 (itr (szOf j)) st.buf 0).2.1 0
            (itr (szOf j))) ++
       [Ev.fcloseSrc j, Ev.writeDev endbuf 5 (os.dw j), Ev.drain (os.dd j),
        Ev.report (sumFrom (os.w j) 0 (itr (szOf j)))
          (os.clock (st.tIdx + 1) - os.clock st.tIdx)],
       Flow.next,
       { buf := (readLoop (os.file j) j 0 (itr (szOf j)) st.buf 0).2.1, rc := os.dd j,
         tIdx := st.tIdx + 2 }) := by
  obtain ⟨hf, hw, hd, hdw, hdd⟩ := h
  have hwl := writeLoop_ok os j (readLoop (os.file j) j 0 (itr (szOf j)) st.buf 0).2.1 hw hd
    (itr (szOf j)) 0 0 st.rc
  have hrc : ¬ (writeLoop os j (readLoop (os.file j) j 0 (itr (szOf j)) st.buf 0).2.1 0
      (itr (szOf j)) 0 st.rc).2.2 < 0 := by
    rw [hwl.2.2.1 (itr_szOf_pos j)]
    exact not_lt.mpr (hd _)
  simp only [runItem, hf, if_true, if_neg hrc, if_neg (not_lt.mpr hdw), if_neg (not_lt.mpr hdd)]
  rw [hwl.1, hwl.2.1]
  simp

/-- Exhaustive case analysis of an item iteration, for an arbitrary oracle. -/
theorem runItem_cases (os : Os) (j : Nat) (st : St) :
    (os.fopenOk j = false ∧
      runItem os j st = ([Ev.fopenSrc j false, Ev.errMsg], Flow.ret 1, st)) ∨
    (∃ tail flw st2,
      runItem os j st =
        (Ev.fopenSrc j true ::
           ((readLoop (os.file j) j 0 (itr (szOf j)) st.buf 0).1 ++
            (writeLoop os j (readLoop (os.file j) j 0 (itr (szOf j)) st.buf 0).2.1 0
              (itr (szOf j)) 0 st.rc).1) ++ tail, flw, st2) ∧
      ((tail = [Ev.errMsg] ∧
          flw = Flow.ret (writeLoop os j (readLoop (os.file j) j 0 (itr (szOf j)) st.buf 0).2.1 0
            (itr (szOf j)) 0 st.rc).2.2 ∧
          (writeLoop os j (readLoop (os.file j) j 0 (itr (szOf j)) st.buf 0).2.1 0
            (itr (szOf j)) 0 st.rc).2.2 < 0) ∨
       (0 ≤ (writeLoop os j (readLoop (os.file j) j 0 (itr (szOf j)) st.buf 0).2.1 0
            (itr (szOf j)) 0 st.rc).2.2 ∧
          ((tail = [Ev.fcloseSrc j, Ev.writeDev endbuf 5 (os.dw j), Ev.errMsg] ∧
              flw = Flow.brk ∧ os.dw j < 0) ∨
           (tail = [Ev.fcloseSrc j, Ev.writeDev endbuf 5 (os.dw j), Ev.drain (os.dd j),
                Ev.errMsg] ∧
              flw = Flow.brk ∧ 0 ≤ os.dw j ∧ os.dd j < 0) ∨
           (∃ tot el,
              tail = [Ev.fcloseSrc j, Ev.writeDev endbuf 5 (os.dw j), Ev.drain (os.dd j),
                Ev.report tot el] ∧
              flw = Flow.next ∧ 0 ≤ os.dw j ∧ 0 ≤ os.dd j))))) := by
  by_cases hf : os.fopenOk j
  · right
    by_cases h1 : (writeLoop os j (readLoop (os.file j) j 0 (itr (szOf j)) st.buf 0).2.1 0
        (itr (szOf j)) 0 st.rc).2.2 < 0
    · refine ⟨[Ev.errMsg],
        Flow.ret (writeLoop os j (readLoop (os.file j) j 0 (itr (szOf j)) st.buf 0).2.1 0
          (itr (szOf j)) 0 st.rc).2.2,
        { buf := (readLoop (os.file j) j 0 (itr (szOf j)) st.buf 0).2.1,
          rc := (writeLoop os j (readLoop (os.file j) j 0 (itr (szOf j)) st.buf 0).2.1 0
            (itr (szOf j)) 0 st.rc).2.2,
          tIdx := st.tIdx + 1 }, ?_, Or.inl ⟨rfl, rfl, h1⟩⟩
      simp [runItem, hf, h1]
    · by_cases h2 : os.dw j < 0
      · refine ⟨[Ev.fcloseSrc j, Ev.writeDev endbuf 5 (os.dw j), Ev.errMsg], Flow.brk,
          { buf := (readLoop (os.file j) j 0 (itr (szOf j)) st.buf 0).2.1, rc := os.dw j,
            tIdx := st.tIdx + 1 }, ?_,
          Or.inr ⟨not_lt.mp h1, Or.inl ⟨rfl, rfl, h2⟩⟩⟩
        simp [runItem, hf, h1, h2]
      · by_cases h3 : os.dd j < 0
        · refine ⟨[Ev.fcloseSrc j, Ev.writeDev endbuf 5 (os.dw j), Ev.drain (os.dd j),
              Ev.errMsg], Flow.brk,
            { buf := (readLoop (os.file j) j 0 (itr (szOf j)) st.buf 0).2.1, rc := os.dd j,
              tIdx := st.tIdx + 1 }, ?_,
            Or.inr ⟨not_lt.mp h1, Or.inr (Or.inl ⟨rfl, rfl, not_lt.mp h2, h3⟩)⟩⟩
          simp [runItem, hf, h1, h2, h3]
        · refine ⟨[Ev.fcloseSrc j, Ev.writeDev endbuf 5 (os.dw j), Ev.drain (os.dd j),
              Ev.report (writeLoop os j (readLoop (os.file j) j 0 (itr (szOf j)) st.buf 0).2.1 0
                (itr (szOf j)) 0 st.rc).2.1
                (os.clock (st.tIdx + 1) - os.clock st.tIdx)], Flow.next,
            { buf := (readLoop (os.file j) j 0 (itr (szOf j)) st.buf 0).2.1, rc := os.dd j,
              tIdx := st.tIdx + 2 }, ?_,
            Or.inr ⟨not_lt.mp h1, Or.inr (Or.inr ⟨_, _, rfl, rfl, not_lt.mp h2, not_lt.mp h3⟩)⟩⟩
          simp [runItem, hf, h1, h2, h3]
  · left
    refine ⟨by simpa using hf, ?_⟩
    simp [runItem, hf]

/-! ### Per-scanner facts about one item iteration -/

theorem pend_runItem (os : Os) (j : Nat) (st : St) :
    scanOk pendOk pendUpd false (runItem os j st).1 = true ∧
    ((runItem os j st).2.1 = Flow.next → endSt pendUpd false (runItem os j st).1 = false) := by
  rcases runItem_cases os j st with ⟨hf, heq⟩ | ⟨tail, flw, st2, heq, hcase⟩
  · rw [heq]
    refine ⟨by simp [scanOk, pendOk, pendUpd, isWrite, isDrain], fun h => ?_⟩
    simp at h
  · have hrlN := pend_seg_neutral (readLoop (os.file j) j 0 (itr (szOf j)) st.buf 0).1
      (fun e he => ⟨(readLoop_calm _ _ _ _ _ _ e he).1, (readLoop_calm _ _ _ _ _ _ e he).2.1⟩)
      false
    have hwlP := pend_writeLoop os j (readLoop (os.file j) j 0 (itr (szOf j)) st.buf 0).2.1
      (itr (szOf j)) 0 0 st.rc
    have hu : pendUpd false (Ev.fopenSrc j true) = false := rfl
    have ho : pendOk false (Ev.fopenSrc j true) = true := rfl
    rw [heq]
    simp only [List.cons_append, scanOk_cons, endSt_cons, hu, ho, Bool.true_and,
      scanOk_append, endSt_append, hrlN.1, hrlN.2, hwlP.1]
    rcases hcase with ⟨ht, hfw, hneg⟩ | ⟨hrc, hcase⟩
    · subst ht hfw
      refine ⟨by simp [scanOk, pendOk, isWrite], fun h => ?_⟩
      simp at h
    · have hs1 : endSt pendUpd false
          (writeLoop os j (readLoop (os.file j) j 0 (itr (szOf j)) st.buf 0).2.1 0
            (itr (szOf j)) 0 st.rc).1 = false := by
        cases hs : endSt pendUpd false
            (writeLoop os j (readLoop (os.file j) j 0 (itr (szOf j)) st.buf 0).2.1 0
              (itr (szOf j)) 0 st.rc).1
        · rfl
        · exact absurd (hwlP.2 hs) (not_lt.mpr hrc)
      rw [hs1]
      rcases hcase with ⟨ht, hfw, _⟩ | ⟨ht, hfw, _⟩ | ⟨tot, el, ht, hfw, _⟩ <;> subst ht hfw
      · refine ⟨by simp [scanOk, pendOk, pendUpd, isWrite, isDrain], fun h => ?_⟩
        simp at h
      · refine ⟨by simp [scanOk, pendOk, pendUpd, isWrite, isDrain], fun h => ?_⟩
        simp at h
      · exact ⟨by simp [scanOk, pendOk, pendUpd, isWrite, isDrain],
          fun _ => by simp [endSt_cons, endSt, pendUpd, isWrite, isDrain]⟩

theorem fd_runItem (os : Os) (j : Nat) (st : St) :
    scanOk fdOk fdUpd false (runItem os j st).1 = true ∧
    ((runItem os j st).2.1 = Flow.next → endSt fdUpd false (runItem os j st).1 = false) := by
  rcases runItem_cases os j st with ⟨hf, heq⟩ | ⟨tail, flw, st2, heq, hcase⟩
  · rw [heq]
    refine ⟨by simp [scanOk, fdOk, fdUpd, isWrite, isFailedDrain], fun h => ?_⟩
    simp at h
  · have hrlN := fd_seg_neutral (readLoop (os.file j) j 0 (itr (szOf j)) st.buf 0).1
      (fun e he => ⟨(readLoop_calm _ _ _ _ _ _ e he).1, (readLoop_calm _ _ _ _ _ _ e he).2.2.1⟩)
      false
    have hwlF := fd_writeLoop os j (readLoop (os.file j) j 0 (itr (szOf j)) st.buf 0).2.1
      (itr (szOf j)) 0 0 st.rc
    have hu : fdUpd false (Ev.fopenSrc j true) = false := rfl
    have ho : fdOk false (Ev.fopenSrc j true) = true := rfl
    rw [heq]
    simp only [List.cons_append, scanOk_cons, endSt_cons, hu, ho, Bool.true_and,
      scanOk_append, endSt_append, hrlN.1, hrlN.2, hwlF.1]
    rcases hcase with ⟨ht, hfw, hneg⟩ | ⟨hrc, hcase⟩
    · subst ht hfw
      refine ⟨by simp [scanOk, fdOk, isWrite], fun h => ?_⟩
      simp at h
    · have hs1 : endSt fdUpd false
          (writeLoop os j (readLoop (os.file j) j 0 (itr (szOf j)) st.buf 0).2.1 0
            (itr (szOf j)) 0 st.rc).1 = false := by
        cases hs : endSt fdUpd false
            (writeLoop os j (readLoop (os.file j) j 0 (itr (szOf j)) st.buf 0).2.1 0
              (itr (szOf j)) 0 st.rc).1
        · rfl
        · exact absurd (hwlF.2 hs) (not_lt.mpr hrc)
      rw [hs1]
      rcases hcase with ⟨ht, hfw, _⟩ | ⟨ht, hfw, hdw, hdd⟩ | ⟨tot, el, ht, hfw, hdw, hdd⟩ <;>
        subst ht hfw
      · refine ⟨by simp [scanOk, fdOk, fdUpd, isWrite, isFailedDrain], fun h => ?_⟩
        simp at h
      · refine ⟨by simp [scanOk, fdOk, fdUpd, isWrite, isFailedDrain], fun h => ?_⟩
        simp at h
      · exact ⟨by simp [scanOk, fdOk, fdUpd, isWrite, isFailedDrain],
          fun _ => by
            simp [endSt_cons, endSt, fdUpd, isFailedDrain, not_lt.mpr hdd]⟩

theorem jf_runItem (os : Os) (j : Nat) (st : St) :
    scanOk jfOk jfUpd false (runItem os j st).1 = true ∧
    endSt jfUpd false (runItem os j st).1 = false := by
  rcases runItem_cases os j st with ⟨hf, heq⟩ | ⟨tail, flw, st2, heq, hcase⟩
  · rw [heq]
    exact ⟨by simp [scanOk, jfOk, jfUpd, isFailedDrain],
      by simp [endSt, jfUpd, isFailedDrain]⟩
  · have hrlN := jf_noDrainSeg (readLoop (os.file j) j 0 (itr (szOf j)) st.buf 0).1
      (fun e he => (readLoop_calm _ _ _ _ _ _ e he).2.2.1)
    have hwlJ := jf_writeLoop os j (readLoop (os.file j) j 0 (itr (szOf j)) st.buf 0).2.1
      (itr (szOf j)) 0 0 st.rc
    have hu : jfUpd false (Ev.fopenSrc j true) = false := rfl
    have ho : jfOk false (Ev.fopenSrc j true) = true := rfl
    rw [heq]
    simp only [List.cons_append, scanOk_cons, endSt_cons, hu, ho, Bool.true_and,
      scanOk_append, endSt_append, hrlN.1, hrlN.2, hwlJ.1, hwlJ.2]
    rcases hcase with ⟨ht, hfw, hneg⟩ | ⟨hrc, hcase⟩
    · subst ht hfw
      exact ⟨by simp [scanOk, jfOk, jfUpd, isFailedDrain],
        by simp [endSt, jfUpd, isFailedDrain]⟩
    · rcases hcase with ⟨ht, hfw, _⟩ | ⟨ht, hfw, hdw, hdd⟩ | ⟨tot, el, ht, hfw, hdw, hdd⟩ <;>
        subst ht hfw
      · exact ⟨by simp [scanOk, jfOk, jfUpd, isFailedDrain],
          by simp [endSt, jfUpd, isFailedDrain]⟩
      · exact ⟨by simp [scanOk, jfOk, jfUpd, isFailedDrain, hdd],
          by simp [endSt, jfUpd, isFailedDrain]⟩
      · exact ⟨by simp [scanOk, jfOk, jfUpd, isFailedDrain, not_lt.mpr hdd],
          by simp [endSt, jfUpd, isFailedDrain]⟩

theorem open_runItem (os : Os) (j : Nat) (st : St) :
    scanOk openOk openUpd false (runItem os j st).1 = true ∧
    ((runItem os j st).2.1 = Flow.next → endSt openUpd false (runItem os j st).1 = false) := by
  rcases runItem_cases os j st with ⟨hf, heq⟩ | ⟨tail, flw, st2, heq, hcase⟩
  · rw [heq]
    refine ⟨by simp [scanOk, openOk, openUpd, isFopen, isFclose], fun h => ?_⟩
    simp at h
  · have hrlN := open_seg_neutral (readLoop (os.file j) j 0 (itr (szOf j)) st.buf 0).1
      (fun e he =>
        ⟨(readLoop_calm _ _ _ _ _ _ e he).2.2.2.1, (readLoop_calm _ _ _ _ _ _ e he).2.2.2.2⟩)
      true
    have hwlO := open_writeLoop os j (readLoop (os.file j) j 0 (itr (szOf j)) st.buf 0).2.1
      (itr (szOf j)) 0 0 st.rc true
    have hu : openUpd false (Ev.fopenSrc j true) = true := rfl
    have ho : openOk false (Ev.fopenSrc j true) = true := rfl
    rw [heq]
    simp only [List.cons_append, scanOk_cons, endSt_cons, hu, ho, Bool.true_and,
      scanOk_append, endSt_append, hrlN.1, hrlN.2, hwlO.1, hwlO.2]
    rcases hcase with ⟨ht, hfw, hneg⟩ | ⟨hrc, hcase⟩
    · subst ht hfw
      refine ⟨by simp [scanOk, openOk, openUpd, isFopen, isFclose], fun h => ?_⟩
      simp at h
    · rcases hcase with ⟨ht, hfw, _⟩ | ⟨ht, hfw, _⟩ | ⟨tot, el, ht, hfw, _⟩ <;> subst ht hfw
      · refine ⟨by simp [scanOk, openOk, openUpd, isFopen, isFclose], fun h => ?_⟩
        simp at h
      · refine ⟨by simp [scanOk, openOk, openUpd, isFopen, isFclose], fun h => ?_⟩
        simp at h
      · exact ⟨by simp [scanOk, openOk, openUpd, isFopen, isFclose],
          fun _ => by simp [endSt_cons, endSt, openUpd, isFopen, isFclose]⟩

/-! ### Per-scanner facts about the whole item loop -/

theorem pend_runItems (os : Os) :
    ∀ rem j st, scanOk pendOk pendUpd false (runItems os j rem st).1 = true ∧
      ((runItems os j rem st).2.1 = Flow.next →
        endSt pendUpd false (runItems os j rem st).1 = false) := by
  intro rem
  induction rem with
  | zero => intro j st; exact ⟨rfl, fun _ => rfl⟩
  | succ m ih =>
    intro j st
    have hi := pend_runItem os j st
    cases hfl : (runItem os j st).2.1 with
    | next =>
      have hrest := ih (j + 1) (runItem os j st).2.2
      refine ⟨?_, fun h => ?_⟩
      · simp only [runItems, hfl]
        rw [scanOk_append, hi.1, Bool.true_and, hi.2 hfl]
        exact hrest.1
      · simp only [runItems, hfl] at h ⊢
        rw [endSt_append, hi.2 hfl]
        exact hrest.2 h
    | brk =>
      refine ⟨?_, fun h => ?_⟩
      · simp only [runItems, hfl]; exact hi.1
      · simp only [runItems, hfl] at h
        exact Flow.noConfusion h
    | ret c =>
      refine ⟨?_, fun h => ?_⟩
      · simp only [runItems, hfl]; exact hi.1
      · simp only [runItems, hfl] at h
        exact Flow.noConfusion h

theorem fd_runItems (os : Os) :
    ∀ rem j st, scanOk fdOk fdUpd false (runItems os j rem st).1 = true ∧
      ((runItems os j rem st).2.1 = Flow.next →
        endSt fdUpd false (runItems os j rem st).1 = false) := by
  intro rem
  induction rem with
  | zero => intro j st; exact ⟨rfl, fun _ => rfl⟩
  | succ m ih =>
    intro j st
    have hi := fd_runItem os j st
    cases hfl : (runItem os j st).2.1 with
    | next =>
      have hrest := ih (j + 1) (runItem os j st).2.2
      refine ⟨?_, fun h => ?_⟩
      · simp only [runItems, hfl]
        rw [scanOk_append, hi.1, Bool.true_and, hi.2 hfl]
        exact hrest.1
      · simp only [runItems, hfl] at h ⊢
        rw [endSt_append, hi.2 hfl]
        exact hrest.2 h
    | brk =>
      refine ⟨?_, fun h => ?_⟩
      · simp only [runItems, hfl]; exact hi.1
      · simp only [runItems, hfl] at h
        exact Flow.noConfusion h
    | ret c =>
      refine ⟨?_, fun h => ?_⟩
      · simp only [runItems, hfl]; exact hi.1
      · simp only [runItems, hfl] at h
        exact Flow.noConfusion h

theorem jf_runItems (os : Os) :
    ∀ rem j st, scanOk jfOk jfUpd false (runItems os j rem st).1 = true ∧
      endSt jfUpd false (runItems os j rem st).1 = false := by
  intro rem
  induction rem with
  | zero => intro j st; exact ⟨rfl, rfl⟩
  | succ m ih =>
    intro j st
    have hi := jf_runItem os j st
    cases hfl : (runItem os j st).2.1 with
    | next =>
      have hrest := ih (j + 1) (runItem os j st).2.2
      refine ⟨?_, ?_⟩
      · simp only [runItems, hfl]
        rw [scanOk_append, hi.1, Bool.true_and, hi.2]
        exact hrest.1
      · simp only [runItems, hfl]
        rw [endSt_append, hi.2]
        exact hrest.2
    | brk => exact ⟨by simp only [runItems, hfl]; exact hi.1,
        by simp only [runItems, hfl]; exact hi.2⟩
    | ret c => exact ⟨by simp only [runItems, hfl]; exact hi.1,
        by simp only [runItems, hfl]; exact hi.2⟩

theorem open_runItems (os : Os) :
    ∀ rem j st, scanOk openOk openUpd false (runItems os j rem st).1 = true ∧
      ((runItems os j rem st).2.1 = Flow.next →
        endSt openUpd false (runItems os j rem st).1 = false) := by
  intro rem
  induction rem with
  | zero => intro j st; exact ⟨rfl, fun _ => rfl⟩
  | succ m ih =>
    intro j st
    have hi := open_runItem os j st
    cases hfl : (runItem os j st).2.1 with
    | next =>
      have hrest := ih (j + 1) (runItem os j st).2.2
      refine ⟨?_, fun h => ?_⟩
      · simp only [runItems, hfl]
        rw [scanOk_append, hi.1, Bool.true_and, hi.2 hfl]
        exact hrest.1
      · simp only [runItems, hfl] at h ⊢
        rw [endSt_append, hi.2 hfl]
        exact hrest.2 h
    | brk =>
      refine ⟨?_, fun h => ?_⟩
      · simp only [runItems, hfl]; exact hi.1
      · simp only [runItems, hfl] at h
        exact Flow.noConfusion h
    | ret c =>
      refine ⟨?_, fun h => ?_⟩
      · simp only [runItems, hfl]; exact hi.1
      · simp only [runItems, hfl] at h
        exact Flow.noConfusion h

/-! ### The configuration and teardown segments, and the shape of a run -/

theorem configT_calm (os : Os) :
    ∀ e ∈ configT os,
      isWrite e = false ∧ isDrain e = false ∧ isFailedDrain e = false ∧
      isFopen e = false ∧ isFclose e = false := by
  intro e he
  simp only [configT, List.mem_cons, List.not_mem_nil, or_false] at he
  rcases he with rfl | rfl | rfl | rfl | rfl | rfl | rfl | rfl | rfl <;>
    exact ⟨rfl, rfl, rfl, rfl, rfl⟩

theorem sessionEnd_calm (os : Os) :
    ∀ e ∈ (sessionEnd os).1,
      isWrite e = false ∧ isDrain e = false ∧ isFailedDrain e = false ∧
      isFopen e = false ∧ isFclose e = false := by
  intro e he
  by_cases h : os.mbicRes < 0
  · simp only [sessionEnd, if_pos h, List.mem_cons, List.not_mem_nil, or_false] at he
    rcases he with rfl | rfl | rfl <;> exact ⟨rfl, rfl, rfl, rfl, rfl⟩
  · simp only [sessionEnd, if_neg h, List.mem_cons, List.not_mem_nil, or_false] at he
    rcases he with rfl | rfl | rfl <;> exact ⟨rfl, rfl, rfl, rfl, rfl⟩

/-- Every run is either an early configuration-failure trace containing no
write, drain, or source open/close at all, or the configuration trace
followed by the item loop and (unless an item returned) the teardown. -/
theorem run_shape (os : Os) :
    (∃ l c, run os = (l, c) ∧ ∀ e ∈ l,
        isWrite e = false ∧ isDrain e = false ∧ isFailedDrain e = false ∧
        isFopen e = false ∧ isFclose e = false) ∨
    (∃ t2 c, run os = (configT os ++ (runItems os 0 imageAmount (st0 os)).1 ++ t2, c) ∧
       (t2 = [] ∨ t2 = (sessionEnd os).1)) := by
  by_cases h0 : os.forkOk = false
  · refine Or.inl ⟨[Ev.forkEv false, Ev.errMsg], 1, by simp [run, h0], fun e he => ?_⟩
    simp only [List.mem_cons, List.not_mem_nil, or_false] at he
    rcases he with rfl | rfl <;> exact ⟨rfl, rfl, rfl, rfl, rfl⟩
  · by_cases h1 : os.openRes < 0
    · refine Or.inl ⟨[Ev.forkEv true, Ev.openDev os.openRes, Ev.errMsg], os.openRes,
        by simp [run, h0, h1], fun e he => ?_⟩
      simp only [List.mem_cons, List.not_mem_nil, or_false] at he
      rcases he with rfl | rfl | rfl <;> exact ⟨rfl, rfl, rfl, rfl, rfl⟩
    · by_cases h2 : os.setdRes < 0
      · refine Or.inl ⟨[Ev.forkEv true, Ev.openDev os.openRes, Ev.setDisc os.setdRes,
          Ev.errMsg], os.setdRes, by simp [run, h0, h1, h2], fun e he => ?_⟩
        simp only [List.mem_cons, List.not_mem_nil, or_false] at he
        rcases he with rfl | rfl | rfl | rfl <;> exact ⟨rfl, rfl, rfl, rfl, rfl⟩
      · by_cases h3 : os.getpRes < 0
        · refine Or.inl ⟨[Ev.forkEv true, Ev.openDev os.openRes, Ev.setDisc os.setdRes,
            Ev.getPar os.getpRes, Ev.errMsg], os.getpRes,
            by simp [run, h0, h1, h2, h3], fun e he => ?_⟩
          simp only [List.mem_cons, List.not_mem_nil, or_false] at he
          rcases he with rfl | rfl | rfl | rfl | rfl <;> exact ⟨rfl, rfl, rfl, rfl, rfl⟩
        · by_cases h4 : os.setpRes < 0
          · refine Or.inl ⟨[Ev.forkEv true, Ev.openDev os.openRes, Ev.setDisc os.setdRes,
              Ev.getPar os.getpRes, Ev.setPar os.setpRes, Ev.errMsg], os.setpRes,
              by simp [run, h0, h1, h2, h3, h4], fun e he => ?_⟩
            simp only [List.mem_cons, List.not_mem_nil, or_false] at he
            rcases he with rfl | rfl | rfl | rfl | rfl | rfl <;> exact ⟨rfl, rfl, rfl, rfl, rfl⟩
          · by_cases h5 : os.idleRes < 0
            · refine Or.inl ⟨[Ev.forkEv true, Ev.openDev os.openRes, Ev.setDisc os.setdRes,
                Ev.getPar os.getpRes, Ev.setPar os.setpRes, Ev.setIdle os.idleRes, Ev.errMsg],
                os.idleRes, by simp [run, h0, h1, h2, h3, h4, h5], fun e he => ?_⟩
              simp only [List.mem_cons, List.not_mem_nil, or_false] at he
              rcases he with rfl | rfl | rfl | rfl | rfl | rfl | rfl <;>
                exact ⟨rfl, rfl, rfl, rfl, rfl⟩
            · by_cases h6 : os.mbisRes < 0
              · refine Or.inl ⟨[Ev.forkEv true, Ev.openDev os.openRes, Ev.setDisc os.setdRes,
                  Ev.getPar os.getpRes, Ev.setPar os.setpRes, Ev.setIdle os.idleRes, Ev.getFl,
                  Ev.assertLines os.mbisRes, Ev.errMsg], os.mbisRes,
                  by simp [run, h0, h1, h2, h3, h4, h5, h6], fun e he => ?_⟩
                simp only [List.mem_cons, List.not_mem_nil, or_false] at he
                rcases he with rfl | rfl | rfl | rfl | rfl | rfl | rfl | rfl | rfl <;>
                  exact ⟨rfl, rfl, rfl, rfl, rfl⟩
              · right
                cases hfl : (runItems os 0 imageAmount (st0 os)).2.1 with
                | next =>
                  exact ⟨(sessionEnd os).1, (sessionEnd os).2,
                    by simp [run, h0, h1, h2, h3, h4, h5, h6, hfl], Or.inr rfl⟩
                | brk =>
                  exact ⟨(sessionEnd os).1, (sessionEnd os).2,
                    by simp [run, h0, h1, h2, h3, h4, h5, h6, hfl], Or.inr rfl⟩
                | ret c =>
                  exact ⟨[], c, by simp [run, h0, h1, h2, h3, h4, h5, h6, hfl], Or.inl rfl⟩

/-! ### The run under a successful configuration -/

theorem run_cfgOk_ret (os : Os) (h : cfgOk os) (c : Int)
    (hfl : (runItems os 0 imageAmount (st0 os)).2.1 = Flow.ret c) :
    run os = (configT os ++ (runItems os 0 imageAmount (st0 os)).1, c) := by
  obtain ⟨hf, ho, hs, hg, hp, hi, hm, hc⟩ := h
  simp [run, hf, not_lt.mpr ho, not_lt.mpr hs, not_lt.mpr hg, not_lt.mpr hp, not_lt.mpr hi,
    not_lt.mpr hm, hfl]

theorem run_cfgOk_end (os : Os) (h : cfgOk os)
    (hfl : (runItems os 0 imageAmount (st0 os)).2.1 = Flow.next ∨
      (runItems os 0 imageAmount (st0 os)).2.1 = Flow.brk) :
    run os = (configT os ++ (runItems os 0 imageAmount (st0 os)).1 ++ (sessionEnd os).1,
      (sessionEnd os).2) := by
  obtain ⟨hf, ho, hs, hg, hp, hi, hm, hc⟩ := h
  rcases hfl with hfl | hfl <;>
    simp [run, hf, not_lt.mpr ho, not_lt.mpr hs, not_lt.mpr hg, not_lt.mpr hp, not_lt.mpr hi,
      not_lt.mpr hm, hfl, List.append_assoc]

/-! ### Flow of the item loop -/

theorem runItem_flow_chunksOk (os : Os) (j : Nat) (st : St) (h : itemChunksOk os j) :
    (runItem os j st).2.1 = Flow.next ∨ (runItem os j st).2.1 = Flow.brk := by
  obtain ⟨hf, hw, hd⟩ := h
  have hwl := writeLoop_ok os j (readLoop (os.file j) j 0 (itr (szOf j)) st.buf 0).2.1 hw hd
    (itr (szOf j)) 0 0 st.rc
  have hrc : ¬ (writeLoop os j (readLoop (os.file j) j 0 (itr (szOf j)) st.buf 0).2.1 0
      (itr (szOf j)) 0 st.rc).2.2 < 0 := by
    rw [hwl.2.2.1 (itr_szOf_pos j)]
    exact not_lt.mpr (hd _)
  by_cases h2 : os.dw j < 0
  · right; simp [runItem, hf, hrc, h2]
  · by_cases h3 : os.dd j < 0
    · right; simp [runItem, hf, hrc, h2, h3]
    · left; simp [runItem, hf, hrc, h2, h3]

theorem runItems_flow_chunksOk (os : Os) (h : ∀ j, itemChunksOk os j) :
    ∀ rem j st, (runItems os j rem st).2.1 = Flow.next ∨
      (runItems os j rem st).2.1 = Flow.brk := by
  intro rem
  induction rem with
  | zero => intro j st; exact Or.inl rfl
  | succ m ih =>
    intro j st
    rcases runItem_flow_chunksOk os j st (h j) with hfl | hfl
    · simp only [runItems, hfl]
      exact ih (j + 1) (runItem os j st).2.2
    · simp only [runItems, hfl]
      exact Or.inr trivial

theorem runItem_ok_flow (os : Os) (j : Nat) (st : St) (h : itemOk os j) :
    (runItem os j st).2.1 = Flow.next := by
  rw [runItem_ok os j st h]

theorem runItems_ok_flow (os : Os) (hok : ∀ j, itemOk os j) :
    ∀ rem j st, (runItems os j rem st).2.1 = Flow.next := by
  intro rem
  induction rem with
  | zero => intro j st; rfl
  | succ m ih =>
    intro j st
    simp only [runItems, runItem_ok_flow os j st (hok j)]
    exact ih (j + 1) (runItem os j st).2.2

/-! ### Counting events of a successful item -/

theorem runItem_ok_countP (os : Os) (j : Nat) (st : St) (h : itemOk os j) (p : Ev → Bool)
    (hro : ∀ a b c, p (Ev.readChunk a b c) = false)
    (hwv : ∀ dat r, p (Ev.writeDev dat BUFSIZ r) = false)
    (hdr : ∀ r, p (Ev.drain r) = false)
    (hfo : p (Ev.fopenSrc j true) = false)
    (hfc : p (Ev.fcloseSrc j) = false)
    (hdl : p (Ev.writeDev endbuf 5 (os.dw j)) = false)
    (hrp : ∀ t el, p (Ev.report t el) = false) :
    ((runItem os j st).1).countP p = 0 := by
  rw [runItem_ok os j st h]
  simp only [List.cons_append, List.countP_cons, List.countP_append, hfo, hfc, hdl,
    hdr (os.dd j), hrp, List.countP_nil,
    readLoop_countP_zero (os.file j) j p hro,
    wlTraceOk_countP_zero (os.w j) (os.d j) _ p hwv hdr]
  simp

theorem runItem_ok_countFopen (os : Os) (j : Nat) (st : St) (h : itemOk os j) :
    ((runItem os j st).1).countP isFopen = 1 := by
  rw [runItem_ok os j st h]
  simp only [List.cons_append, List.countP_cons, List.countP_append, List.countP_nil,
    readLoop_countP_zero (os.file j) j isFopen (fun _ _ _ => rfl),
    wlTraceOk_countP_zero (os.w j) (os.d j) _ isFopen (fun _ _ => rfl) (fun _ => rfl)]
  simp [isFopen]

theorem runItem_ok_countFclose (os : Os) (j : Nat) (st : St) (h : itemOk os j) :
    ((runItem os j st).1).countP isFclose = 1 := by
  rw [runItem_ok os j st h]
  simp only [List.cons_append, List.countP_cons, List.countP_append, List.countP_nil,
    readLoop_countP_zero (os.file j) j isFclose (fun _ _ _ => rfl),
    wlTraceOk_countP_zero (os.w j) (os.d j) _ isFclose (fun _ _ => rfl) (fun _ => rfl)]
  simp [isFclose]

theorem runItem_ok_countChunk (os : Os) (j : Nat) (st : St) (h : itemOk os j) :
    ((runItem os j st).1).countP isChunkWrite = itr (szOf j) := by
  rw [runItem_ok os j st h]
  simp only [List.cons_append, List.countP_cons, List.countP_append, List.countP_nil,
    readLoop_countP_zero (os.file j) j isChunkWrite (fun _ _ _ => rfl),
    wlTraceOk_countChunk (os.w j) (os.d j)]
  simp [isChunkWrite, isFclose, isDrain, BUFSIZ]

theorem runItem_ok_countDelim (os : Os) (j : Nat) (st : St) (h : itemOk os j) :
    ((runItem os j st).1).countP isDelimWrite = 1 := by
  rw [runItem_ok os j st h]
  simp only [List.cons_append, List.countP_cons, List.countP_append, List.countP_nil,
    readLoop_countP_zero (os.file j) j isDelimWrite (fun _ _ _ => rfl),
    wlTraceOk_countDelim (os.w j) (os.d j)]
  simp [isDelimWrite]

theorem chunkSizesSum_append (a b : List Ev) :
    chunkSizesSum (a ++ b) = chunkSizesSum a + chunkSizesSum b := by
  simp [chunkSizesSum, List.filter_append]

theorem chunkSizesSum_zero (l : List Ev) (h : ∀ e ∈ l, isChunkWrite e = false) :
    chunkSizesSum l = 0 := by
  have : l.filter isChunkWrite = [] := List.filter_eq_nil_iff.mpr (by intro a ha; simp [h a ha])
  simp [chunkSizesSum, this]

theorem runItem_ok_chunkSizes (os : Os) (j : Nat) (st : St) (h : itemOk os j) :
    chunkSizesSum ((runItem os j st).1) = itr (szOf j) * BUFSIZ := by
  rw [runItem_ok os j st h]
  have h1 : chunkSizesSum ((readLoop (os.file j) j 0 (itr (szOf j)) st.buf 0).1) = 0 := by
    refine chunkSizesSum_zero _ (fun e he => ?_)
    obtain ⟨a, b, c, rfl⟩ := readLoop_shape (os.file j) j (itr (szOf j)) 0 st.buf 0 e he
    rfl
  have h2 : chunkSizesSum [Ev.fcloseSrc j, Ev.writeDev endbuf 5 (os.dw j), Ev.drain (os.dd j),
      Ev.report (sumFrom (os.w j) 0 (itr (szOf j)))
        (os.clock (st.tIdx + 1) - os.clock st.tIdx)] = 0 := by
    refine chunkSizesSum_zero _ (fun e he => ?_)
    simp only [List.mem_cons, List.not_mem_nil, or_false] at he
    rcases he with rfl | rfl | rfl | rfl <;> simp [isChunkWrite, BUFSIZ]
  have h3 : chunkSizesSum [Ev.fopenSrc j true] = 0 := by
    refine chunkSizesSum_zero _ (fun e he => ?_)
    simp only [List.mem_cons, List.not_mem_nil, or_false] at he
    rcases he with rfl
    rfl
  calc chunkSizesSum ((Ev.fopenSrc j true ::
        ((readLoop (os.file j) j 0 (itr (szOf j)) st.buf 0).1 ++
         wlTraceOk (os.w j) (os.d j) (readLoop (os.file j) j 0 (itr (szOf j)) st.buf 0).2.1 0
           (itr (szOf j)))) ++
      [Ev.fcloseSrc j, Ev.writeDev endbuf 5 (os.dw j), Ev.drain (os.dd j),
       Ev.report (sumFrom (os.w j) 0 (itr (szOf j)))
         (os.clock (st.tIdx + 1) - os.clock st.tIdx)])
      = chunkSizesSum ([Ev.fopenSrc j true] ++
          (readLoop (os.file j) j 0 (itr (szOf j)) st.buf 0).1 ++
          wlTraceOk (os.w j) (os.d j) (readLoop (os.file j) j 0 (itr (szOf j)) st.buf 0).2.1 0
            (itr (szOf j)) ++
          [Ev.fcloseSrc j, Ev.writeDev endbuf 5 (os.dw j), Ev.drain (os.dd j),
           Ev.report (sumFrom (os.w j) 0 (itr (szOf j)))
             (os.clock (st.tIdx + 1) - os.clock st.tIdx)]) := by
        simp [List.append_assoc]
    _ = itr (szOf j) * BUFSIZ := by
        simp only [chunkSizesSum_append, h1, h2, h3,
          wlTraceOk_chunkSizes (os.w j) (os.d j)]
        omega

theorem reports_append (a b : List Ev) : reports (a ++ b) = reports a ++ reports b := by
  simp [reports]

theorem runItem_ok_reports (os : Os) (j : Nat) (st : St) (h : itemOk os j) :
    reports ((runItem os j st).1) =
      [(sumFrom (os.w j) 0 (itr (szOf j)), os.clock (st.tIdx + 1) - os.clock st.tIdx)] := by
  rw [runItem_ok os j st h]
  simp only [List.cons_append, reports, List.filterMap_cons, List.filterMap_append,
    List.filterMap_nil]
  rw [show (List.filterMap _ (readLoop (os.file j) j 0 (itr (szOf j)) st.buf 0).1) =
    reports (readLoop (os.file j) j 0 (itr (szOf j)) st.buf 0).1 from rfl]
  rw [show (List.filterMap _ (wlTraceOk (os.w j) (os.d j)
      (readLoop (os.file j) j 0 (itr (szOf j)) st.buf 0).2.1 0 (itr (szOf j)))) =
    reports (wlTraceOk (os.w j) (os.d j)
      (readLoop (os.file j) j 0 (itr (szOf j)) st.buf 0).2.1 0 (itr (szOf j))) from rfl]
  rw [readLoop_reports, wlTraceOk_reports]
  rfl

/-! ### Counting events across the item loop -/

theorem runItems_ok_countP (os : Os) (hok : ∀ j, itemOk os j) (p : Ev → Bool) (c : Nat)
    (hcnt : ∀ j st, ((runItem os j st).1).countP p = c) :
    ∀ rem j st, ((runItems os j rem st).1).countP p = rem * c := by
  intro rem
  induction rem with
  | zero => intro j st; simp [runItems]
  | succ m ih =>
    intro j st
    simp only [runItems, runItem_ok_flow os j st (hok j), List.countP_append, hcnt j st,
      ih (j + 1) (runItem os j st).2.2]
    ring

/-! ### Failure-path characterizations of one item -/

theorem runItem_chunkFail_eq (os : Os) (j : Nat) (st : St) (hf : os.fopenOk j = true)
    (hw0 : os.w j 0 < 0) :
    runItem os j st =
      ((Ev.fopenSrc j true ::
         ((readLoop (os.file j) j 0 (itr (szOf j)) st.buf 0).1 ++
          [Ev.writeDev (((readLoop (os.file j) j 0 (itr (szOf j)) st.buf 0).2.1).take BUFSIZ)
             BUFSIZ (os.w j 0), Ev.errMsg])) ++ [Ev.errMsg],
       Flow.ret (os.w j 0),
       { buf := (readLoop (os.file j) j 0 (itr (szOf j)) st.buf 0).2.1, rc := os.w j 0,
         tIdx := st.tIdx + 1 }) := by
  have hwl := writeLoop_fail0 os j (readLoop (os.file j) j 0 (itr (szOf j)) st.buf 0).2.1 0
    (itr (szOf j)) 0 st.rc hw0 (itr_szOf_pos j)
  simp [runItem, hf, hwl, hw0]

theorem runItem_delimFail_eq (os : Os) (j : Nat) (st : St) (hf : os.fopenOk j = true)
    (hw : ∀ k, 0 ≤ os.w j k) (hd : ∀ k, 0 ≤ os.d j k) (hdw : os.dw j < 0) :
    runItem os j st =
      ((Ev.fopenSrc j true ::
         ((readLoop (os.file j) j 0 (itr (szOf j)) st.buf 0).1 ++
          wlTraceOk (os.w j) (os.d j) (readLoop (os.file j) j 0 (itr (szOf j)) st.buf 0).2.1 0
            (itr (szOf j)))) ++
       [Ev.fcloseSrc j, Ev.writeDev endbuf 5 (os.dw j), Ev.errMsg],
       Flow.brk,
       { buf := (readLoop (os.file j) j 0 (itr (szOf j)) st.buf 0).2.1, rc := os.dw j,
         tIdx := st.tIdx + 1 }) := by
  have hwl := writeLoop_ok os j (readLoop (os.file j) j 0 (itr (szOf j)) st.buf 0).2.1 hw hd
    (itr (szOf j)) 0 0 st.rc
  have hrc : ¬ (writeLoop os j (readLoop (os.file j) j 0 (itr (szOf j)) st.buf 0).2.1 0
      (itr (szOf j)) 0 st.rc).2.2 < 0 := by
    rw [hwl.2.2.1 (itr_szOf_pos j)]
    exact not_lt.mpr (hd _)
  simp [runItem, hf, hrc, hdw, hwl.1]

/-! ### The payload an item puts on the link -/

theorem chunkPayload_append (a b : List Ev) :
    chunkPayload (a ++ b) = chunkPayload a ++ chunkPayload b := by
  simp [chunkPayload, List.filter_append]

theorem chunkPayload_zero (l : List Ev) (h : ∀ e ∈ l, isChunkWrite e = false) :
    chunkPayload l = [] := by
  have : l.filter isChunkWrite = [] := List.filter_eq_nil_iff.mpr (by intro a ha; simp [h a ha])
  simp [chunkPayload, this]

theorem runItem_ok_payload (os : Os) (j : Nat) (st : St) (h : itemOk os j) :
    chunkPayload ((runItem os j st).1) =
      (List.replicate (itr (szOf j))
        (((readLoop (os.file j) j 0 (itr (szOf j)) st.buf 0).2.1).take BUFSIZ)).flatten := by
  rw [runItem_ok os j st h]
  have h1 : chunkPayload ((readLoop (os.file j) j 0 (itr (szOf j)) st.buf 0).1) = [] := by
    refine chunkPayload_zero _ (fun e he => ?_)
    obtain ⟨a, b, c, rfl⟩ := readLoop_shape (os.file j) j (itr (szOf j)) 0 st.buf 0 e he
    rfl
  have h2 : chunkPayload [Ev.fcloseSrc j, Ev.writeDev endbuf 5 (os.dw j), Ev.drain (os.dd j),
      Ev.report (sumFrom (os.w j) 0 (itr (szOf j)))
        (os.clock (st.tIdx + 1) - os.clock st.tIdx)] = [] := by
    refine chunkPayload_zero _ (fun e he => ?_)
    simp only [List.mem_cons, List.not_mem_nil, or_false] at he
    rcases he with rfl | rfl | rfl | rfl <;> simp [isChunkWrite, BUFSIZ]
  have h3 : chunkPayload [Ev.fopenSrc j true] = [] := chunkPayload_zero _ (by
    intro e he
    simp only [List.mem_cons, List.not_mem_nil, or_false] at he
    rcases he with rfl
    rfl)
  have hsplit : (Ev.fopenSrc j true ::
        ((readLoop (os.file j) j 0 (itr (szOf j)) st.buf 0).1 ++
         wlTraceOk (os.w j) (os.d j) (readLoop (os.file j) j 0 (itr (szOf j)) st.buf 0).2.1 0
           (itr (szOf j)))) ++
      [Ev.fcloseSrc j, Ev.writeDev endbuf 5 (os.dw j), Ev.drain (os.dd j),
       Ev.report (sumFrom (os.w j) 0 (itr (szOf j)))
         (os.clock (st.tIdx + 1) - os.clock st.tIdx)] =
      [Ev.fopenSrc j true] ++
        (readLoop (os.file j) j 0 (itr (szOf j)) st.buf 0).1 ++
        wlTraceOk (os.w j) (os.d j) (readLoop (os.file j) j 0 (itr (szOf j)) st.buf 0).2.1 0
          (itr (szOf j)) ++
        [Ev.fcloseSrc j, Ev.writeDev endbuf 5 (os.dw j), Ev.drain (os.dd j),
         Ev.report (sumFrom (os.w j) 0 (itr (szOf j)))
           (os.clock (st.tIdx + 1) - os.clock st.tIdx)] := by
    simp [List.append_assoc]
  rw [hsplit, chunkPayload_append, chunkPayload_append, chunkPayload_append, h1, h2, h3,
    wlTraceOk_payload]
  simp

theorem flatten_replicate_replicate (a : Nat) :
    ∀ n m, (List.replicate n (List.replicate m a)).flatten = List.replicate (n * m) a := by
  intro n
  induction n with
  | zero => intro m; simp
  | succ k ih =>
    intro m
    rw [List.replicate_succ, List.flatten_cons, ih m,
      show (k + 1) * m = m + k * m by ring, List.replicate_add]

/-! ### Facts about the concrete oracles -/

theorem osGood_allOk : allOk osGood :=
  ⟨⟨rfl, by decide, by decide, by decide, by decide, by decide, by decide, by decide⟩,
   fun _ => ⟨rfl, fun _ => by show (0:Int) ≤ 4096; decide, fun _ => by show (0:Int) ≤ 0; decide,
     by show (0:Int) ≤ 5; decide, by show (0:Int) ≤ 0; decide⟩⟩

theorem osChunkFail_cfgOk : cfgOk osChunkFail :=
  ⟨rfl, by decide, by decide, by decide, by decide, by decide, by decide, by decide⟩

theorem osDelimFail_cfgOk : cfgOk osDelimFail :=
  ⟨rfl, by decide, by decide, by decide, by decide, by decide, by decide, by decide⟩

theorem osC1_itemOk : itemOk osC1 0 :=
  ⟨rfl, fun _ => by show (0:Int) ≤ 4096; decide, fun _ => by show (0:Int) ≤ 0; decide,
   by show (0:Int) ≤ 5; decide, by show (0:Int) ≤ 0; decide⟩

theorem osC2_itemOk : itemOk osC2 1 :=
  ⟨rfl, fun _ => by show (0:Int) ≤ 4096; decide, fun _ => by show (0:Int) ≤ 0; decide,
   by show (0:Int) ≤ 5; decide, by show (0:Int) ≤ 0; decide⟩

theorem itr_szOf_zero : itr (szOf 0) = 4096 := by decide

theorem itr_szOf_one : itr (szOf 1) = 7 := by decide

/-- Item 0 of the C1 scenario reads 4096 full chunks; the buffer ends up
holding the file's LAST 4096 bytes (all 1s). -/
theorem osC1_buf_take :
    ((readLoop (osC1.file 0) 0 0 (itr (szOf 0)) stC1.buf 0).2.1).take BUFSIZ =
      List.replicate 4096 1 := by
  have hfile : osC1.file 0 = fileC1 := rfl
  rw [hfile, itr_szOf_zero]
  have hlen : BUFSIZ * 4096 ≤ (fileC1.drop 0).length := by
    simp only [fileC1, List.drop_zero, List.length_append, List.length_replicate, BUFSIZ]
    omega
  have h := readLoop_buf_take fileC1 0 4096 0 stC1.buf 0 (by omega) hlen
  rw [h]
  have h2 : (0 + (4096 - 1) * BUFSIZ) = (List.replicate (4095 * 4096) (0 : Nat)).length := by
    simp only [List.length_replicate, BUFSIZ]
  rw [h2, fileC1, List.drop_left]
  rw [show BUFSIZ = (List.replicate 4096 (1:Nat)).length by rw [List.length_replicate]; rfl,
    List.take_length]

/-- The first chunk write of item 0 fails under `osChunkFail`. -/
theorem osChunkFail_item_flow :
    (runItem osChunkFail 0 (st0 osChunkFail)).2.1 = Flow.ret (-1) := by
  rw [runItem_chunkFail_eq osChunkFail 0 (st0 osChunkFail) rfl (by decide)]
  decide

theorem runItems_osChunkFail_flow :
    (runItems osChunkFail 0 imageAmount (st0 osChunkFail)).2.1 = Flow.ret (-1) := by
  have h14 : imageAmount = 13 + 1 := rfl
  rw [h14]
  simp only [runItems, osChunkFail_item_flow]

theorem run_osChunkFail :
    run osChunkFail = (configT osChunkFail ++ (runItem osChunkFail 0 (st0 osChunkFail)).1,
      -1) := by
  rw [run_cfgOk_ret osChunkFail osChunkFail_cfgOk (-1) runItems_osChunkFail_flow]
  have h14 : imageAmount = 13 + 1 := rfl
  rw [h14]
  simp only [runItems, osChunkFail_item_flow]

theorem osDelimFail_item_flow :
    (runItem osDelimFail 0 (st0 osDelimFail)).2.1 = Flow.brk := by
  rw [runItem_delimFail_eq osDelimFail 0 (st0 osDelimFail) rfl
    (fun _ => by show (0:Int) ≤ 4096; decide) (fun _ => by show (0:Int) ≤ 0; decide)
    (by decide)]

theorem runItems_osDelimFail_flow :
    (runItems osDelimFail 0 imageAmount (st0 osDelimFail)).2.1 = Flow.brk := by
  have h14 : imageAmount = 13 + 1 := rfl
  rw [h14]
  simp only [runItems, osDelimFail_item_flow]

theorem run_osDelimFail :
    run osDelimFail = (configT osDelimFail ++ (runItem osDelimFail 0 (st0 osDelimFail)).1 ++
      [Ev.sleepSec 2, Ev.deassertLines osDelimFail.mbicRes, Ev.closeDev], 0) := by
  rw [run_cfgOk_end osDelimFail osDelimFail_cfgOk (Or.inr runItems_osDelimFail_flow)]
  have hmb : ¬ osDelimFail.mbicRes < 0 := by decide
  have hse : sessionEnd osDelimFail =
      ([Ev.sleepSec 2, Ev.deassertLines osDelimFail.mbicRes, Ev.closeDev], 0) := by
    simp [sessionEnd, hmb]
  rw [hse]
  have h14 : imageAmount = 13 + 1 := rfl
  rw [h14]
  simp only [runItems, osDelimFail_item_flow]

/-! ### Claim theorems -/

/-- Claim C1 (code bug): the chunk writes do NOT transmit the item's file
bytes in order.  The read loop overwrites one shared 4096-byte buffer with
every chunk before anything is sent (lines 292-296), so the send loop
(lines 303-311) puts `itr` copies of the file's LAST chunk on the link:
for a 16777216-byte file whose first chunk is all 0s and whose last chunk
is all 1s, the transmitted payload is 16777216 bytes of 1s and differs
from the file. -/
theorem c1_payload_bug :
    chunkPayload ((runItem osC1 0 stC1).1) = List.replicate 16777216 1 ∧
    (osC1.file 0).length = 16777216 ∧
    chunkPayload ((runItem osC1 0 stC1).1) ≠ osC1.file 0 := by
  have hp := runItem_ok_payload osC1 0 stC1 osC1_itemOk
  rw [osC1_buf_take, itr_szOf_zero, flatten_replicate_replicate] at hp
  rw [show (4096 * 4096 : Nat) = 16777216 by norm_num] at hp
  have hfl : osC1.file 0 = fileC1 := rfl
  have hlen : (osC1.file 0).length = 16777216 := by
    rw [hfl]
    simp only [fileC1, List.length_append, List.length_replicate]
  refine ⟨hp, hlen, ?_⟩
  rw [hp, hfl]
  intro hcontra
  have hh := congrArg List.head? hcontra
  rw [show (16777216 : Nat) = 16777215 + 1 by norm_num, List.replicate_succ] at hh
  rw [show fileC1 = (0 : Nat) :: (List.replicate 16773119 0 ++ List.replicate 4096 1) by
    rw [fileC1, show (4095 * 4096 : Nat) = 16773119 + 1 by norm_num, List.replicate_succ,
      List.cons_append]] at hh
  rw [List.head?_cons, List.head?_cons] at hh
  exact absurd (Option.some.inj hh) (by norm_num)

/-- Claim C2 counterexample: for the odd (xml) item the engine issues 7
chunk writes requesting 4096 bytes each — 28672 bytes in total — for a
source of L = 28165 bytes: the chunk-write sizes do not sum to L as the
claim requires. -/
theorem c2_counterexample :
    ((runItem osC2 1 stGood).1).countP isChunkWrite = 7 ∧
    chunkSizesSum ((runItem osC2 1 stGood).1) = 28672 ∧
    (osC2.file 1).length = 28165 ∧
    chunkSizesSum ((runItem osC2 1 stGood).1) ≠ (osC2.file 1).length := by
  have h1 := runItem_ok_countChunk osC2 1 stGood osC2_itemOk
  have h2 := runItem_ok_chunkSizes osC2 1 stGood osC2_itemOk
  rw [itr_szOf_one] at h1 h2
  rw [show (7 * BUFSIZ : Nat) = 28672 from rfl] at h2
  have hlen : (osC2.file 1).length = 28165 := by
    show (List.replicate 28165 (3 : Nat)).length = 28165
    rw [List.length_replicate]
  exact ⟨h1, h2, hlen, by rw [h2, hlen]; norm_num⟩

/-- Claim C2 amended: for the hardcoded per-item length sz (16777200 for
even items, 28165 for odd; the source's real length is never consulted)
and chunk size 4096, the engine issues exactly `(sz + 2048) / 4096`
(round-to-nearest, not ceiling) chunk writes, each requesting exactly 4096
bytes — so the request sizes sum to that count times 4096, not to the
source length — followed by exactly one 5-byte delimiter write, provided
every call of the item succeeds. -/
theorem c2_amended_writes (os : Os) (j : Nat) (st : St) (h : itemOk os j) :
    ((runItem os j st).1).countP isChunkWrite = itr (szOf j) ∧
    chunkSizesSum ((runItem os j st).1) = itr (szOf j) * BUFSIZ ∧
    ((runItem os j st).1).countP isDelimWrite = 1 :=
  ⟨runItem_ok_countChunk os j st h, runItem_ok_chunkSizes os j st h,
   runItem_ok_countDelim os j st h⟩

/-- Witness for the amended C2 at a concrete fully-successful oracle. -/
theorem c2_amended_witness :
    ((runItem osGood 0 stGood).1).countP isChunkWrite = itr (szOf 0) ∧
    chunkSizesSum ((runItem osGood 0 stGood).1) = itr (szOf 0) * BUFSIZ ∧
    ((runItem osGood 0 stGood).1).countP isDelimWrite = 1 :=
  c2_amended_writes osGood 0 stGood (osGood_allOk.2 0)

/-- Claim C3 counterexample: when the first chunk write of item 0 fails,
the run asserts RTS/DTR once, reports the error by exiting -1, and never
deasserts the control lines. -/
theorem c3_counterexample :
    (runTrace osChunkFail).countP isAssert = 1 ∧
    (runTrace osChunkFail).countP isDeassert = 0 ∧
    runExit osChunkFail = -1 := by
  have htr : runTrace osChunkFail =
      configT osChunkFail ++ (runItem osChunkFail 0 (st0 osChunkFail)).1 := by
    unfold runTrace
    rw [run_osChunkFail]
  have hx : runExit osChunkFail = -1 := by
    unfold runExit
    rw [run_osChunkFail]
  have hitem := runItem_chunkFail_eq osChunkFail 0 (st0 osChunkFail) rfl (by decide)
  refine ⟨?_, ?_, hx⟩
  · rw [htr, List.countP_append, hitem]
    have hc : (configT osChunkFail).countP isAssert = 1 := by
      simp [configT, List.countP_cons, isAssert]
    rw [hc]
    simp only [List.cons_append, List.countP_cons, List.countP_append,
      readLoop_countP_zero _ _ isAssert (fun _ _ _ => rfl), List.countP_nil]
    simp [isAssert]
  · rw [htr, List.countP_append, hitem]
    have hc : (configT osChunkFail).countP isDeassert = 0 := by
      simp [configT, List.countP_cons, isDeassert]
    rw [hc]
    simp only [List.cons_append, List.countP_cons, List.countP_append,
      readLoop_countP_zero _ _ isDeassert (fun _ _ _ => rfl), List.countP_nil]
    simp [isDeassert]

/-- Claim C3 amended: the control lines are asserted exactly once and
deasserted exactly once on every run in which all calls succeed; a
mid-queue chunk-write/drain or source-open failure instead returns from
`main` without ever deasserting them. -/
theorem c3_amended_control_lines (os : Os) (h : allOk os) :
    (runTrace os).countP isAssert = 1 ∧ (runTrace os).countP isDeassert = 1 := by
  have hflow := runItems_ok_flow os h.2 imageAmount 0 (st0 os)
  have heq := run_cfgOk_end os h.1 (Or.inl hflow)
  have hmb : ¬ os.mbicRes < 0 := not_lt.mpr h.1.2.2.2.2.2.2.2
  have hse : (sessionEnd os).1 = [Ev.sleepSec 2, Ev.deassertLines os.mbicRes, Ev.closeDev] := by
    simp [sessionEnd, hmb]
  have hia := runItems_ok_countP os h.2 isAssert 0 (fun j st =>
    runItem_ok_countP os j st (h.2 j) isAssert (fun _ _ _ => rfl) (fun _ _ => rfl)
      (fun _ => rfl) rfl rfl rfl (fun _ _ => rfl)) imageAmount 0 (st0 os)
  have hid := runItems_ok_countP os h.2 isDeassert 0 (fun j st =>
    runItem_ok_countP os j st (h.2 j) isDeassert (fun _ _ _ => rfl) (fun _ _ => rfl)
      (fun _ => rfl) rfl rfl rfl (fun _ _ => rfl)) imageAmount 0 (st0 os)
  unfold runTrace
  rw [heq]
  refine ⟨?_, ?_⟩
  · rw [List.countP_append, List.countP_append, hse, hia]
    simp [configT, List.countP_cons, isAssert, isDeassert]
  · rw [List.countP_append, List.countP_append, hse, hid]
    simp [configT, List.countP_cons, isAssert, isDeassert]

/-- Witness for the amended C3 at a concrete fully-successful oracle. -/
theorem c3_amended_witness :
    (runTrace osGood).countP isAssert = 1 ∧ (runTrace osGood).countP isDeassert = 1 :=
  c3_amended_control_lines osGood osGood_allOk

/-- Claim C4 counterexample: under `osDelimFail` the delimiter write of
item 0 fails (one failed write is on the trace), yet the process exits 0. -/
theorem c4_counterexample :
    runExit osDelimFail = 0 ∧ (runTrace osDelimFail).countP isFailedWrite = 1 := by
  have hx : runExit osDelimFail = 0 := by
    unfold runExit
    rw [run_osDelimFail]
  refine ⟨hx, ?_⟩
  have htr : runTrace osDelimFail = configT osDelimFail ++
      (runItem osDelimFail 0 (st0 osDelimFail)).1 ++
      [Ev.sleepSec 2, Ev.deassertLines osDelimFail.mbicRes, Ev.closeDev] := by
    unfold runTrace
    rw [run_osDelimFail]
  rw [htr]
  have hitem := runItem_delimFail_eq osDelimFail 0 (st0 osDelimFail) rfl
    (fun _ => by show (0:Int) ≤ 4096; decide) (fun _ => by show (0:Int) ≤ 0; decide) (by decide)
  rw [List.countP_append, List.countP_append, hitem]
  have hcfg : (configT osDelimFail).countP isFailedWrite = 0 := by
    simp [configT, List.countP_cons, isFailedWrite]
  have hwl0 : (wlTraceOk (osDelimFail.w 0) (osDelimFail.d 0)
      (readLoop (osDelimFail.file 0) 0 0 (itr (szOf 0)) (st0 osDelimFail).buf 0).2.1 0
      (itr (szOf 0))).countP isFailedWrite = 0 := by
    refine countP_zero_of_shape _ _ (fun e he => ?_)
    rcases wlTraceOk_shape _ _ _ _ _ e he with ⟨i, _, _, rfl⟩ | ⟨i, _, _, rfl⟩
    · show decide (osDelimFail.w 0 i < 0) = false
      show decide ((4096 : Int) < 0) = false
      decide
    · rfl
  rw [hcfg]
  simp only [List.cons_append, List.countP_cons, List.countP_append,
    readLoop_countP_zero _ _ isFailedWrite (fun _ _ _ => rfl), hwl0, List.countP_nil]
  have hdw : isFailedWrite (Ev.writeDev endbuf 5 (osDelimFail.dw 0)) = true := by
    show decide (osDelimFail.dw 0 < 0) = true
    decide
  simp [isFailedWrite, hdw]
  decide

/-- Claim C4 amended: the process exits 0 on full success AND also when
only delimiter writes or post-delimiter drains fail (those `break` out of
the item loop and fall through to the normal teardown); a chunk-stage
failure instead exits with the failing call's raw return value (-1), not
the OS error code. -/
theorem c4_amended_exit :
    (∀ os, cfgOk os → (∀ j, itemChunksOk os j) → runExit os = 0) ∧
    runExit osChunkFail = -1 := by
  refine ⟨fun os h1 h2 => ?_, ?_⟩
  · have hfl := runItems_flow_chunksOk os h2 imageAmount 0 (st0 os)
    unfold runExit
    rw [run_cfgOk_end os h1 hfl]
    simp [sessionEnd, not_lt.mpr h1.2.2.2.2.2.2.2]
  · unfold runExit
    rw [run_osChunkFail]

/-- Witness for the amended C4: the fully successful oracle exits 0. -/
theorem c4_amended_witness : runExit osGood = 0 :=
  c4_amended_exit.1 osGood osGood_allOk.1 (fun _ =>
    ⟨rfl, fun _ => by show (0:Int) ≤ 4096; decide, fun _ => by show (0:Int) ≤ 0; decide⟩)

/-- Claim C5 (confirmed): after any drain reports failure, no write (for
that item or any other) ever occurs again in the run, and every failed
drain is immediately followed by an error diagnostic — the run terminates
by construction. -/
theorem c5_drain_failure_halts (os : Os) :
    noWriteAfterFailedDrain (runTrace os) = true ∧
    drainFailureReported (runTrace os) = true := by
  unfold noWriteAfterFailedDrain drainFailureReported runTrace
  rcases run_shape os with ⟨l, c, heq, hcalm⟩ | ⟨t2, c, heq, ht2⟩
  · rw [heq]
    have hfd := fd_seg_neutral l (fun e he => ⟨(hcalm e he).1, (hcalm e he).2.2.1⟩) false
    have hjf := jf_noDrainSeg l (fun e he => (hcalm e he).2.2.1)
    refine ⟨hfd.1, ?_⟩
    rw [hjf.1, hjf.2]
    rfl
  · rw [heq]
    have hcf := fd_seg_neutral (configT os)
      (fun e he => ⟨(configT_calm os e he).1, (configT_calm os e he).2.2.1⟩) false
    have hcj := jf_noDrainSeg (configT os) (fun e he => (configT_calm os e he).2.2.1)
    have hif := fd_runItems os imageAmount 0 (st0 os)
    have hij := jf_runItems os imageAmount 0 (st0 os)
    refine ⟨?_, ?_⟩
    · simp only [scanOk_append, endSt_append, hcf.1, hcf.2, hif.1, Bool.true_and]
      rcases ht2 with rfl | rfl
      · rfl
      · exact (fd_seg_neutral (sessionEnd os).1
          (fun e he => ⟨(sessionEnd_calm os e he).1, (sessionEnd_calm os e he).2.2.1⟩) _).1
    · simp only [scanOk_append, endSt_append, hcj.1, hcj.2, hij.1, hij.2, Bool.true_and]
      rcases ht2 with rfl | rfl
      · rfl
      · have hsj := jf_noDrainSeg (sessionEnd os).1
          (fun e he => (sessionEnd_calm os e he).2.2.1)
        simp [hsj.1, hsj.2]

/-- Claim C6 (confirmed): in the device-operation sequence of any run, no
two writes (chunk or delimiter) occur without an intervening drain. -/
theorem c6_write_drain_alternation (os : Os) : noDoubleWrite (runTrace os) = true := by
  unfold noDoubleWrite runTrace
  rcases run_shape os with ⟨l, c, heq, hcalm⟩ | ⟨t2, c, heq, ht2⟩
  · rw [heq]
    exact (pend_seg_neutral l (fun e he => ⟨(hcalm e he).1, (hcalm e he).2.1⟩) false).1
  · rw [heq]
    have hc := pend_seg_neutral (configT os)
      (fun e he => ⟨(configT_calm os e he).1, (configT_calm os e he).2.1⟩) false
    have hii := pend_runItems os imageAmount 0 (st0 os)
    simp only [scanOk_append, endSt_append, hc.1, hc.2, hii.1, Bool.true_and]
    rcases ht2 with rfl | rfl
    · rfl
    · exact (pend_seg_neutral (sessionEnd os).1
        (fun e he => ⟨(sessionEnd_calm os e he).1, (sessionEnd_calm os e he).2.1⟩) _).1

/-- Claim C7 (code bug): the device is opened with O_NONBLOCK, and the
flag is NEVER cleared: the `fcntl(F_SETFL, ...)` call on line 237 is
commented out, only a dead local `blk` (which even ORs O_NONBLOCK back in)
is computed, so the handle keeps non-blocking semantics for every
subsequent write. -/
theorem c7_nonblock_never_cleared :
    devFlagsAfterConfig = openFlags ∧
    devFlagsAfterConfig &&& O_NONBLOCK = O_NONBLOCK ∧
    blkLocal &&& O_NONBLOCK = O_NONBLOCK ∧
    O_NONBLOCK ≠ 0 := by decide

/-- Claim C8 counterexample: when a chunk write of item 0 fails, the run
opens one source file and never closes it (the early `return rc` on lines
325-328 precedes the `fclose` on line 330). -/
theorem c8_counterexample :
    (runTrace osChunkFail).countP isFopen = 1 ∧
    (runTrace osChunkFail).countP isFclose = 0 := by
  have htr : runTrace osChunkFail =
      configT osChunkFail ++ (runItem osChunkFail 0 (st0 osChunkFail)).1 := by
    unfold runTrace
    rw [run_osChunkFail]
  have hitem := runItem_chunkFail_eq osChunkFail 0 (st0 osChunkFail) rfl (by decide)
  refine ⟨?_, ?_⟩
  · rw [htr, List.countP_append, hitem]
    have hc : (configT osChunkFail).countP isFopen = 0 := by
      simp [configT, List.countP_cons, isFopen]
    rw [hc]
    simp only [List.cons_append, List.countP_cons, List.countP_append,
      readLoop_countP_zero _ _ isFopen (fun _ _ _ => rfl), List.countP_nil]
    simp [isFopen]
  · rw [htr, List.countP_append, hitem]
    have hc : (configT osChunkFail).countP isFclose = 0 := by
      simp [configT, List.countP_cons, isFclose]
    rw [hc]
    simp only [List.cons_append, List.countP_cons, List.countP_append,
      readLoop_countP_zero _ _ isFclose (fun _ _ _ => rfl), List.countP_nil]
    simp [isFclose]

/-- Claim C8 amended: at most one source file is ever open at a time (on
every run, even failing ones), and on a fully successful run every one of
the 14 items' sources is opened and closed exactly once; but on a chunk
write/drain failure the program returns without closing the open source. -/
theorem c8_amended_scoped_sources (os : Os) :
    atMostOneOpen (runTrace os) = true ∧
    (allOk os → (runTrace os).countP isFopen = imageAmount ∧
      (runTrace os).countP isFclose = imageAmount) := by
  constructor
  · unfold atMostOneOpen runTrace
    rcases run_shape os with ⟨l, c, heq, hcalm⟩ | ⟨t2, c, heq, ht2⟩
    · rw [heq]
      exact (open_seg_neutral l
        (fun e he => ⟨(hcalm e he).2.2.2.1, (hcalm e he).2.2.2.2⟩) false).1
    · rw [heq]
      have hc := open_seg_neutral (configT os)
        (fun e he => ⟨(configT_calm os e he).2.2.2.1, (configT_calm os e he).2.2.2.2⟩) false
      have hii := open_runItems os imageAmount 0 (st0 os)
      simp only [scanOk_append, endSt_append, hc.1, hc.2, hii.1, Bool.true_and]
      rcases ht2 with rfl | rfl
      · rfl
      · exact (open_seg_neutral (sessionEnd os).1
          (fun e he =>
            ⟨(sessionEnd_calm os e he).2.2.2.1, (sessionEnd_calm os e he).2.2.2.2⟩) _).1
  · intro h
    have hflow := runItems_ok_flow os h.2 imageAmount 0 (st0 os)
    have heq := run_cfgOk_end os h.1 (Or.inl hflow)
    have hmb : ¬ os.mbicRes < 0 := not_lt.mpr h.1.2.2.2.2.2.2.2
    have hse : (sessionEnd os).1 =
        [Ev.sleepSec 2, Ev.deassertLines os.mbicRes, Ev.closeDev] := by
      simp [sessionEnd, hmb]
    have hio := runItems_ok_countP os h.2 isFopen 1
      (fun j st => runItem_ok_countFopen os j st (h.2 j)) imageAmount 0 (st0 os)
    have hic := runItems_ok_countP os h.2 isFclose 1
      (fun j st => runItem_ok_countFclose os j st (h.2 j)) imageAmount 0 (st0 os)
    unfold runTrace
    rw [heq]
    refine ⟨?_, ?_⟩
    · rw [List.countP_append, List.countP_append, hse, hio]
      simp [configT, List.countP_cons, isFopen, isFclose]
    · rw [List.countP_append, List.countP_append, hse, hic]
      simp [configT, List.countP_cons, isFopen, isFclose]

/-- Witness for the amended C8 at a concrete fully-successful oracle. -/
theorem c8_amended_witness :
    atMostOneOpen (runTrace osGood) = true ∧
    (runTrace osGood).countP isFopen = imageAmount ∧
    (runTrace osGood).countP isFclose = imageAmount :=
  ⟨(c8_amended_scoped_sources osGood).1, (c8_amended_scoped_sources osGood).2 osGood_allOk⟩

/-- Claim C9 (confirmed): an even-indexed (image) item whose writes all
succeed and transfer 4096 bytes each produces exactly 4096 chunk writes of
4096 bytes, followed by (and only then) one 5-byte delimiter write, and
reports 16777216 bytes with a positive elapsed time whenever the wall
clock advanced between the item's two gettimeofday calls. -/
theorem c9_big_image_scenario (os : Os) (st : St)
    (hopen : os.fopenOk 0 = true) (hw : ∀ k, os.w 0 k = 4096)
    (hd : ∀ k, 0 ≤ os.d 0 k) (hdw : 0 ≤ os.dw 0) (hdd : 0 ≤ os.dd 0)
    (ht : st.tIdx = 0) (hclk : os.clock 0 < os.clock 1) :
    ∃ pre post, (runItem os 0 st).1 = pre ++ post ∧
      pre.countP isChunkWrite = 4096 ∧
      (∀ e ∈ pre, isChunkWrite e = true → reqOf e = 4096 ∧ resOf e = 4096) ∧
      pre.countP isDelimWrite = 0 ∧
      post.countP isChunkWrite = 0 ∧ post.countP isDelimWrite = 1 ∧
      reports ((runItem os 0 st).1) = [(16777216, os.clock 1 - os.clock 0)] ∧
      0 < os.clock 1 - os.clock 0 := by
  have hok : itemOk os 0 := ⟨hopen, fun k => by rw [hw k]; decide, hd, hdw, hdd⟩
  have heq := runItem_ok os 0 st hok
  refine ⟨Ev.fopenSrc 0 true ::
      ((readLoop (os.file 0) 0 0 (itr (szOf 0)) st.buf 0).1 ++
       wlTraceOk (os.w 0) (os.d 0) (readLoop (os.file 0) 0 0 (itr (szOf 0)) st.buf 0).2.1 0
         (itr (szOf 0))),
    [Ev.fcloseSrc 0, Ev.writeDev endbuf 5 (os.dw 0), Ev.drain (os.dd 0),
     Ev.report (sumFrom (os.w 0) 0 (itr (szOf 0)))
       (os.clock (st.tIdx + 1) - os.clock st.tIdx)],
    ?_, ?_, ?_, ?_, ?_, ?_, ?_, ?_⟩
  · rw [heq]
  · simp only [List.countP_cons, List.countP_append,
      readLoop_countP_zero _ _ isChunkWrite (fun _ _ _ => rfl),
      wlTraceOk_countChunk, itr_szOf_zero]
    simp [isChunkWrite]
  · intro e he hce
    rcases List.mem_cons.mp he with rfl | he2
    · exact absurd hce (by simp [isChunkWrite])
    · rcases List.mem_append.mp he2 with h3 | h4
      · obtain ⟨a, b, cc, rfl⟩ := readLoop_shape _ _ _ _ _ _ e h3
        exact absurd hce (by simp [isChunkWrite])
      · rcases wlTraceOk_shape _ _ _ _ _ e h4 with ⟨i, _, _, rfl⟩ | ⟨i, _, _, rfl⟩
        · exact ⟨rfl, by show os.w 0 i = 4096; exact hw i⟩
        · exact absurd hce (by simp [isChunkWrite])
  · simp only [List.countP_cons, List.countP_append,
      readLoop_countP_zero _ _ isDelimWrite (fun _ _ _ => rfl), wlTraceOk_countDelim]
    simp [isDelimWrite]
  · simp [List.countP_cons, isChunkWrite, BUFSIZ]
  · simp [List.countP_cons, isDelimWrite, endbuf]
  · rw [runItem_ok_reports os 0 st hok, sumFrom_const (os.w 0) 4096 hw, itr_szOf_zero, ht]
    norm_num
  · omega

/-- Witness for C9 at a concrete fully-successful oracle whose clock
advances. -/
theorem c9_witness :
    ∃ pre post, (runItem osGood 0 stGood).1 = pre ++ post ∧
      pre.countP isChunkWrite = 4096 ∧
      (∀ e ∈ pre, isChunkWrite e = true → reqOf e = 4096 ∧ resOf e = 4096) ∧
      pre.countP isDelimWrite = 0 ∧
      post.countP isChunkWrite = 0 ∧ post.countP isDelimWrite = 1 ∧
      reports ((runItem osGood 0 stGood).1) =
        [(16777216, osGood.clock 1 - osGood.clock 0)] ∧
      0 < osGood.clock 1 - osGood.clock 0 :=
  c9_big_image_scenario osGood stGood rfl (fun _ => rfl)
    (fun _ => by show (0:Int) ≤ 0; decide) (by show (0:Int) ≤ 5; decide)
    (by show (0:Int) ≤ 0; decide) rfl (by show (0:Int) < 1; decide)

/-- Claim C10 (confirmed): whenever an item completes and reports, the
reported byte count is exactly the sum of the return values of that item's
chunk writes — computed from zero for each item independently of any prior
state — and in particular does not change if the delimiter write's return
value is replaced by anything else (the 5 delimiter bytes are never
counted). -/
theorem c10_report_totals (os : Os) (j : Nat) (st : St) (h : itemOk os j) :
    reports ((runItem os j st).1) =
      [(sumFrom (os.w j) 0 (itr (szOf j)), os.clock (st.tIdx + 1) - os.clock st.tIdx)] ∧
    (∀ v : Nat → Int, 0 ≤ v j →
      reports ((runItem { os with dw := v } j st).1) =
        [(sumFrom (os.w j) 0 (itr (szOf j)),
          os.clock (st.tIdx + 1) - os.clock st.tIdx)]) := by
  refine ⟨runItem_ok_reports os j st h, fun v hv => ?_⟩
  exact runItem_ok_reports { os with dw := v } j st ⟨h.1, h.2.1, h.2.2.1, hv, h.2.2.2.2⟩

/-- Witness for C10 at a concrete fully-successful oracle. -/
theorem c10_witness :
    reports ((runItem osGood 0 stGood).1) =
      [(sumFrom (osGood.w 0) 0 (itr (szOf 0)),
        osGood.clock (stGood.tIdx + 1) - osGood.clock stGood.tIdx)] ∧
    (∀ v : Nat → Int, 0 ≤ v 0 →
      reports ((runItem { osGood with dw := v } 0 stGood).1) =
        [(sumFrom (osGood.w 0) 0 (itr (szOf 0)),
          osGood.clock (stGood.tIdx + 1) - osGood.clock stGood.tIdx)]) :=
  c10_report_totals osGood 0 stGood (osGood_allOk.2 0)

end SendTM
